import Mathlib

/-!
Shallow embedding of the query-time core of the searchit gateway
(`services/gateway/app`): RRF fusion (`rag/retriever.py`), cross-encoder
reranking (`rag/reranker.py`), grounded generation (`rag/generator.py`),
the ask route with its rate limiter (`routes/ask.py`) and the feedback
route (`routes/feedback.py` with `adapters/kafka.py`).

Modelling conventions: Python floats are modelled as exact rationals (ℚ);
Python strings as Lean `String` (Python `len`/slicing act on code points,
modelled on `String.data`); Python dicts with a fixed key set as
structures; functions that may raise return `Except`; `async` control
flow is sequential within one request and is modelled by ordinary
function composition.
-/

namespace Searchit

/-- Stable insertion used by `sortDescBy`: `x` is placed in front of the
first element whose key is `≤ key x`, hence in front of equal keys coming
later in the input. -/
def insertDescBy {α : Type} (key : α → ℚ) (x : α) : List α → List α
  | [] => [x]
  | y :: ys => if key y ≤ key x then x :: y :: ys else y :: insertDescBy key x ys

/-- The unique stable descending sort by `key`.  This models Python's
`sorted(xs, key=..., reverse=True)`: CPython's sort is guaranteed stable
and `reverse=True` does not reorder elements with equal keys. -/
def sortDescBy {α : Type} (key : α → ℚ) : List α → List α
  | [] => []
  | x :: xs => insertDescBy key x (sortDescBy key xs)

/-- A backend hit as consumed by `HybridRetriever._rrf_fuse`
(retriever.py): a dict carrying `doc_id`, `chunk_id`, display fields and
the backend `score`. -/
structure SearchResult where
  doc_id : String
  chunk_id : String
  title : String := ""
  text : String := ""
  url : String := ""
  sect : String := ""  -- the source's "section" key ("section" is a Lean keyword)
  lang : String := ""
  tags : List String := []
  score : ℚ := 0
deriving DecidableEq

/-- An entry of the `scores` dict built by `_rrf_fuse`
(retriever.py lines 82-133). -/
structure FusedEntry where
  doc_id : String
  chunk_id : String
  title : String
  text : String
  url : String
  sect : String
  lang : String
  tags : List String
  score : ℚ
  bm25_rank : Option Nat
  dense_rank : Option Nat
  bm25_score : ℚ
  dense_score : ℚ
deriving DecidableEq

/-- The dict key `f"{doc_id}:{chunk_id}"` used by `_rrf_fuse`
(retriever.py lines 88 and 112). -/
def pyKey (doc_id chunk_id : String) : String := doc_id ++ ":" ++ chunk_id

def keyOfEntry (e : FusedEntry) : String := pyKey e.doc_id e.chunk_id

def keyOfResult (r : SearchResult) : String := pyKey r.doc_id r.chunk_id

/-- The fresh dict created for a BM25 hit at 1-based `rank`
(retriever.py lines 90-106): `score` starts at 0.0 and line 106
immediately adds `1.0 / (rrf_k + rank)`. -/
def bm25Entry (k rank : Nat) (r : SearchResult) : FusedEntry :=
  { doc_id := r.doc_id
    chunk_id := r.chunk_id
    title := r.title
    text := r.text
    url := r.url
    sect := r.sect
    lang := r.lang
    tags := r.tags
    score := 1 / ((k : ℚ) + rank)
    bm25_rank := some rank
    dense_rank := none
    bm25_score := r.score
    dense_score := 0 }

/-- One iteration of the BM25 loop (retriever.py lines 85-106): a present
key only gets its `score` incremented (the `scores.get(key, default)`
returns the existing dict); an absent key appends a fresh entry.  Python
dicts preserve insertion order, modelled by an association list. -/
def addBm25One (k rank : Nat) (r : SearchResult) (acc : List FusedEntry) : List FusedEntry :=
  if acc.any (fun e => keyOfEntry e == keyOfResult r) then
    acc.map (fun e =>
      if keyOfEntry e == keyOfResult r then
        { e with score := e.score + 1 / ((k : ℚ) + rank) }
      else e)
  else acc ++ [bm25Entry k rank r]

/-- The BM25 loop `for rank, result in enumerate(bm25_results, 1)`. -/
def addBm25 (k : Nat) : List SearchResult → Nat → List FusedEntry → List FusedEntry
  | [], _, acc => acc
  | r :: rs, rank, acc => addBm25 k rs (rank + 1) (addBm25One k rank r acc)

/-- The in-place update for a dense hit whose key is already present
(retriever.py lines 114-117): add `1/(rrf_k + rank)` to `score`,
overwrite `dense_rank` and `dense_score`. -/
def denseUpd (k rank : Nat) (r : SearchResult) (e : FusedEntry) : FusedEntry :=
  { e with
    score := e.score + 1 / ((k : ℚ) + rank)
    dense_rank := some rank
    dense_score := r.score }

/-- The fresh dict created for a dense-only hit (retriever.py lines
118-133). -/
def denseEntry (k rank : Nat) (r : SearchResult) : FusedEntry :=
  { doc_id := r.doc_id
    chunk_id := r.chunk_id
    title := r.title
    text := r.text
    url := r.url
    sect := r.sect
    lang := r.lang
    tags := r.tags
    score := 1 / ((k : ℚ) + rank)
    bm25_rank := none
    dense_rank := some rank
    bm25_score := 0
    dense_score := r.score }

/-- One iteration of the dense loop (retriever.py lines 109-133). -/
def addDenseOne (k rank : Nat) (r : SearchResult) (acc : List FusedEntry) : List FusedEntry :=
  if acc.any (fun e => keyOfEntry e == keyOfResult r) then
    acc.map (fun e => if keyOfEntry e == keyOfResult r then denseUpd k rank r e else e)
  else acc ++ [denseEntry k rank r]

/-- The dense loop `for rank, result in enumerate(dense_results, 1)`. -/
def addDense (k : Nat) : List SearchResult → Nat → List FusedEntry → List FusedEntry
  | [], _, acc => acc
  | r :: rs, rank, acc => addDense k rs (rank + 1) (addDenseOne k rank r acc)

/-- The fully built `scores` dict, in insertion order. -/
def scoresList (k : Nat) (bm25_results dense_results : List SearchResult) : List FusedEntry :=
  addDense k dense_results 1 (addBm25 k bm25_results 1 [])

/-- `HybridRetriever._rrf_fuse` (retriever.py lines 73-148): build the
`scores` dict from both rank lists, sort its values by fused `score`
descending (Python's stable `sorted(..., reverse=True)`) and truncate to
`top_k`. -/
def rrf_fuse (k : Nat) (bm25_results dense_results : List SearchResult)
    (top_k : Nat) : List FusedEntry :=
  (sortDescBy FusedEntry.score (scoresList k bm25_results dense_results)).take top_k

/-- Identity of a retrieved chunk, per the spec: the `(doc_id, chunk_id)`
pair. -/
def pairOf (r : SearchResult) : String × String := (r.doc_id, r.chunk_id)

def entryPair (e : FusedEntry) : String × String := (e.doc_id, e.chunk_id)

/-- 1-based rank of the first occurrence of pair `p` in a rank list. -/
def rankOf? (p : String × String) (l : List SearchResult) : Option Nat :=
  (l.findIdx? (fun r => pairOf r == p)).map (· + 1)

/-- The RRF contribution of one rank list to the fusion score of pair
`p`: `1/(k_rrf + rank)` if `p` appears there, else 0. -/
def contrib (k : Nat) (p : String × String) (l : List SearchResult) : ℚ :=
  match rankOf? p l with
  | some i => 1 / ((k : ℚ) + i)
  | none => 0

/-- No colon occurs in the string.  When every `doc_id` is colon-free the
dict key `f"{doc_id}:{chunk_id}"` determines the `(doc_id, chunk_id)`
pair. -/
def colonFree (s : String) : Prop := ':' ∉ s.data

instance (s : String) : Decidable (colonFree s) :=
  inferInstanceAs (Decidable (':' ∉ s.data))

/-- `enumerate(l, n)`: the elements of `l` paired with ranks `n, n+1, …`. -/
def ranked {α : Type} : Nat → List α → List (Nat × α)
  | _, [] => []
  | n, x :: xs => (n, x) :: ranked (n + 1) xs

/-- The `scores` dict right after the BM25 loop, when no two BM25 hits
collide on their key: one fresh entry per hit, in rank order. -/
def bm25Entries (k : Nat) (bm25_results : List SearchResult) : List FusedEntry :=
  (ranked 1 bm25_results).map (fun ir => bm25Entry k ir.1 ir.2)

/-- The cumulative effect of the dense loop on one already-present entry:
every dense hit with a matching key applies `denseUpd`. -/
def applyDense (k : Nat) : List SearchResult → Nat → FusedEntry → FusedEntry
  | [], _, e => e
  | r :: rs, rank, e =>
    applyDense k rs (rank + 1)
      (if keyOfEntry e == keyOfResult r then denseUpd k rank r e else e)

/-- The entries freshly appended by the dense loop: the dense hits whose
key is not among `keys`, in rank order. -/
def denseNews (k : Nat) (ds : List SearchResult) (n : Nat) (keys : List String) :
    List FusedEntry :=
  (ranked n ds).filterMap (fun ir =>
    if keys.contains (keyOfResult ir.2) then none else some (denseEntry k ir.1 ir.2))

/-- A rank that is absent sorts after every present rank (`+∞`). -/
def toTopRank : Option Nat → WithTop Nat
  | some i => WithTop.some i
  | none => ⊤

/-- The tie-break key of the spec (§4.3): `(bm25_rank, dense_rank)` with
missing ranks at `+∞`. -/
def tieKey (e : FusedEntry) : WithTop Nat × WithTop Nat :=
  (toTopRank e.bm25_rank, toTopRank e.dense_rank)

/-- Strict lexicographic order on tie-break keys. -/
def tieLt (a b : WithTop Nat × WithTop Nat) : Prop :=
  a.1 < b.1 ∨ (a.1 = b.1 ∧ a.2 < b.2)

instance (a b : WithTop Nat × WithTop Nat) : Decidable (tieLt a b) :=
  inferInstanceAs (Decidable (a.1 < b.1 ∨ (a.1 = b.1 ∧ a.2 < b.2)))

/-- The ordering the spec claims for equal fusion scores: tie-break keys
lexicographically ascending, then lexicographic `chunk_id`. -/
def specTieOrder (a b : FusedEntry) : Prop :=
  tieLt (tieKey a) (tieKey b) ∨ (tieKey a = tieKey b ∧ ¬ b.chunk_id.data < a.chunk_id.data)

/-- A context dict as produced by `CEReranker.rerank` (reranker.py lines
53, 76-79 and 100): keys `text` and `rerank_score`.  The optional
`chunk_id` models a key that another caller of the generator could
supply; the reranker never sets it and the generator never reads it. -/
structure Context where
  text : String
  rerank_score : ℚ
  chunk_id : Option String := none
deriving DecidableEq

/-- The cross-encoder's `predict` method on a batch of (query, candidate)
pairs: one score per pair, or an exception. -/
def PredictFn : Type := List (String × String) → Except Unit (List ℚ)

/-- The degraded output `[{"text": t, "rerank_score": 0.0} for t in
candidates[:top_k]]` (reranker.py lines 53 and 100). -/
def fallbackCtx (t : String) : Context := { text := t, rerank_score := 0 }

/-- `CEReranker.rerank` (reranker.py lines 42-100).  `mdl = none` models
`self.model is None` (load failure); a `predict` returning `Except.error`
models a raising prediction call, handled by the `except` branch.  The
success path zips candidates with scores and stable-sorts descending by
`rerank_score` (Python `sorted(..., reverse=True)`). -/
def rerank (mdl : Option PredictFn) (query : String) (candidates : List String)
    (top_k : Nat) : List Context :=
  match mdl with
  | none => (candidates.take top_k).map fallbackCtx
  | some predict =>
    if candidates.isEmpty then (candidates.take top_k).map fallbackCtx
    else
      match predict (candidates.map (fun c => (query, c))) with
      | Except.error _ => (candidates.take top_k).map fallbackCtx
      | Except.ok scores =>
        (sortDescBy Context.rerank_score
          ((candidates.zip scores).map
            (fun cs => { text := cs.1, rerank_score := cs.2 }))).take top_k

/-- A citation dict `{"chunk_id": ..., "span": {"start": ..., "end": ...}}`
(generator.py lines 112-115).  `span_start`/`span_end` are the span's
`start`/`end` keys ("end" is a Lean keyword). -/
structure Citation where
  chunk_id : String
  span_start : Nat
  span_end : Nat
deriving DecidableEq

/-- The dict returned by `AnswerGenerator.generate` and its helpers, with
the defaults `AskResponse` would fill in for absent keys. -/
structure GenResult where
  abstained : Bool
  reason : Option String := none
  answer : Option String := none
  citations : List Citation := []
  evidence_coverage : ℚ := 0
deriving DecidableEq

/-- Python `len` on a string: number of code points. -/
def pyLen (s : String) : Nat := s.data.length

/-- Python `s[:n]`: the first `n` code points. -/
def pySlice (s : String) (n : Nat) : String := String.mk (s.data.take n)

/-- `self.coverage_threshold = 0.3` (generator.py line 28). -/
def coverage_threshold : ℚ := 3 / 10

/-- Python `max(c.get("rerank_score", 0.0) for c in contexts)`; only
called on non-empty lists, 0 for the empty list. -/
def maxRerank : List Context → ℚ
  | [] => 0
  | c :: cs => cs.foldl (fun m x => max m x.rerank_score) c.rerank_score

/-- `AnswerGenerator._is_answerable` (generator.py lines 84-91): false on
empty contexts, else `max_score >= coverage_threshold`. -/
def is_answerable (contexts : List Context) : Bool :=
  if contexts.isEmpty then false
  else decide (coverage_threshold ≤ maxRerank contexts)

/-- One answer fragment (generator.py lines 108-109): the context text
truncated to 200 code points with an ellipsis when longer. -/
def answerPart (text : String) : String :=
  "Based on the available information: " ++
    (if 200 < pyLen text then pySlice text 200 ++ "..." else text)

/-- The loop `for i, context in enumerate(contexts[:3])` of
`_generate_stub_answer` (generator.py lines 104-115): contexts with
non-empty text contribute one answer part and one citation whose
`chunk_id` is the synthetic `f"chunk_{i}"` and whose span is
`[0, min(len(text), 200))`. -/
def stubPieces : Nat → List Context → List String × List Citation
  | _, [] => ([], [])
  | i, c :: cs =>
    let rest := stubPieces (i + 1) cs
    if c.text == "" then rest
    else
      (answerPart c.text :: rest.1,
        { chunk_id := "chunk_" ++ toString i
          span_start := 0
          span_end := min (pyLen c.text) 200 } :: rest.2)

/-- `AnswerGenerator._generate_stub_answer` (generator.py lines 93-129). -/
def generate_stub_answer (question : String) (contexts : List Context) : GenResult :=
  let pieces := stubPieces 0 (contexts.take 3)
  if pieces.1.isEmpty then { abstained := true, reason := some "no_context" }
  else
    { abstained := false
      answer := some (String.intercalate " " pieces.1)
      citations := pieces.2
      evidence_coverage := min ((contexts.length : ℚ) / 5) 1 }

/-- `AnswerGenerator._generate_hf_answer` (generator.py lines 131-138):
a placeholder that just calls the stub synthesizer. -/
def generate_hf_answer (question : String) (contexts : List Context) : GenResult :=
  generate_stub_answer question contexts

/-- `AnswerGenerator._validate_citations` (generator.py lines 140-152):
it computes `re.findall(r'\[chunk_\d+\]', answer)`, discards the result,
and returns `True` unconditionally ("For stub implementation, always
return True"). -/
def validate_citations (answer : String) (contexts : List Context) : Bool := true

/-- `AnswerGenerator.generate` (generator.py lines 30-82).
`generator_type` is `settings.generator or "stub"` with a forced fallback
to `"stub"` when no HF token is configured; every branch calls the stub
synthesizer. -/
def generate (generator_type question : String) (contexts : List Context)
    (force_citations : Bool) : GenResult :=
  if !is_answerable contexts then { abstained := true, reason := some "low_coverage" }
  else
    let answer_result :=
      if generator_type == "stub" then generate_stub_answer question contexts
      else if generator_type == "hf" then generate_hf_answer question contexts
      else generate_stub_answer question contexts
    if force_citations && !answer_result.abstained then
      if !validate_citations (answer_result.answer.getD "") contexts then
        { abstained := true, reason := some "validation_fail" }
      else answer_result
    else answer_result

/-- The eviction loop of `RateLimiter.is_allowed` (ask.py lines 30-32):
pop timestamps from the front while they are `≤ now - window`. -/
def evictOld (window now : ℚ) : List ℚ → List ℚ
  | [] => []
  | t :: ts => if t ≤ now - window then evictOld window now ts else t :: ts

/-- `RateLimiter.is_allowed` (ask.py lines 26-38) for one client: evict
old timestamps, then admit (appending `now`) iff fewer than `rate`
timestamps remain.  The limiter keeps one independent deque per client
address; this models the deque of a single client. -/
def is_allowed (rate : Nat) (window now : ℚ) (clientQueue : List ℚ) : Bool × List ℚ :=
  let q := evictOld window now clientQueue
  if q.length < rate then (true, q ++ [now]) else (false, q)

/-- The `AskResponse` pydantic model (ask.py lines 48-53). -/
structure AskResponse where
  answer : Option String := none
  citations : List Citation := []
  evidence_coverage : ℚ := 0
  abstained : Bool := false
  reason : Option String := none
deriving DecidableEq

/-- `AskResponse(**answer_result)` (ask.py line 115): absent keys take
the model defaults, which `GenResult` already carries. -/
def toAskResponse (g : GenResult) : AskResponse :=
  { answer := g.answer
    citations := g.citations
    evidence_coverage := g.evidence_coverage
    abstained := g.abstained
    reason := g.reason }

/-- Observable outcome of one `POST /ask` request: HTTP status, whether
the retrieval/rerank/generation pipeline ran, the client's limiter queue
afterwards, and the response body on status 200. -/
structure AskOutcome where
  status : Nat
  retrievalCalls : Nat
  queue : List ℚ
  response : Option AskResponse
deriving DecidableEq

/-- `ask_question` (ask.py lines 55-122), for one client.  `fusedResults`
is the fused list returned by `retriever.search(..., top_k=100)`; `mdl`
is the reranker's cross-encoder state.  When the limiter denies, the
handler's `raise HTTPException(429)` happens inside the `try` block and
`fastapi.HTTPException` subclasses `Exception`, so the blanket
`except Exception` handler catches it and raises
`HTTPException(500, f"Ask failed: {e}")` instead: the client sees 500,
and no retrieval, reranking or generation has run. -/
def ask_question (mdl : Option PredictFn) (question : String) (top_k : Nat)
    (ground : Bool) (now : ℚ) (clientQueue : List ℚ)
    (fusedResults : List FusedEntry) : AskOutcome :=
  let rl := is_allowed 10 60 now clientQueue
  if !rl.1 then
    { status := 500, retrievalCalls := 0, queue := rl.2, response := none }
  else if fusedResults.isEmpty then
    { status := 200
      retrievalCalls := 1
      queue := rl.2
      response := some { abstained := true, reason := some "no_results" } }
  else
    let candidates := fusedResults.map FusedEntry.text
    let reranked := rerank mdl question candidates top_k
    let answer_result := generate "stub" question reranked ground
    { status := 200
      retrievalCalls := 1
      queue := rl.2
      response := some (toAskResponse answer_result) }

/-- `valid_labels` (feedback.py line 38). -/
def valid_labels : List String :=
  ["click", "relevant", "not_relevant", "thumbs_up", "thumbs_down"]

/-- `KafkaProducer.send_feedback_event` (kafka.py lines 120-149): `False`
when the producer is unavailable, `False` when `produce`/`flush` raises
(the `except` swallows it), `True` on success.  It never raises. -/
def send_feedback_event (producerAvailable produceOk : Bool) : Bool :=
  if !producerAvailable then false
  else if produceOk then true else false

/-- Observable outcome of one `POST /feedback` request: HTTP status,
whether a feedback row was written, whether a `search.feedback` event was
produced to the bus, and the success body (status string, feedback_id)
when one is returned. -/
structure FeedbackOutcome where
  status : Nat
  stored : Bool
  emitted : Bool
  body : Option (String × Nat)
deriving DecidableEq

/-- `submit_feedback` (feedback.py lines 23-84).  `storeResult` is the
outcome of `postgres.store_feedback` (which re-raises on failure).  Two
exception paths go through the blanket `except Exception` handler, which
raises `HTTPException(500, ...)`:
the validation `raise HTTPException(400)` for an invalid label
(`fastapi.HTTPException` subclasses `Exception`), and — on every path
that reaches it — `await kafka_producer.send_feedback_event(...)`:
`send_feedback_event` is a plain `def` returning `bool` (kafka.py line
120), the call itself completes (writing the event iff the producer
succeeds), and Python then raises `TypeError: object bool can't be used
in 'await' expression`.  So no request ever reaches the success return on
line 72. -/
def submit_feedback (label : String) (storeResult : Except Unit Nat)
    (producerAvailable produceOk : Bool) : FeedbackOutcome :=
  if !valid_labels.contains label then
    { status := 500, stored := false, emitted := false, body := none }
  else
    match storeResult with
    | Except.error _ => { status := 500, stored := false, emitted := false, body := none }
    | Except.ok _fid =>
      let sent := send_feedback_event producerAvailable produceOk
      { status := 500, stored := true, emitted := sent, body := none }

/-! Concrete inputs used by example runs. -/

/-- A one-hit lexical list. -/
def bm25Ex : List SearchResult := [{ doc_id := "d1", chunk_id := "c1" }]

/-- A one-hit dense list. -/
def denseEx : List SearchResult := [{ doc_id := "d2", chunk_id := "c2" }]

/-- The lexical list of the spec's hybrid-merge scenario. -/
def lexSc : List SearchResult :=
  [{ doc_id := "d1", chunk_id := "c1" }, { doc_id := "d2", chunk_id := "c2" }]

/-- The dense list of the spec's hybrid-merge scenario. -/
def denseSc : List SearchResult :=
  [{ doc_id := "d2", chunk_id := "c2" }, { doc_id := "d3", chunk_id := "c3" }]

/-- A lexical hit whose `doc_id` contains a colon. -/
def bm25Colon : List SearchResult := [{ doc_id := "a:b", chunk_id := "c" }]

/-- A dense hit with a different `(doc_id, chunk_id)` pair but the same
dict key `"a:b:c"`. -/
def denseColon : List SearchResult := [{ doc_id := "a", chunk_id := "b:c" }]

/-- A dense list in which the pair `(dA, cA)` occurs at ranks 1 and 11
and `(dB, cB)` at ranks 2 and 3; with `rrf_k = 1` both accumulate the
fused score `1/2 + 1/12 = 1/3 + 1/4 = 7/12`. -/
def denseDup : List SearchResult :=
  [{ doc_id := "dA", chunk_id := "cA" }, { doc_id := "dB", chunk_id := "cB" },
   { doc_id := "dB", chunk_id := "cB" }, { doc_id := "f", chunk_id := "f4" },
   { doc_id := "f", chunk_id := "f5" }, { doc_id := "f", chunk_id := "f6" },
   { doc_id := "f", chunk_id := "f7" }, { doc_id := "f", chunk_id := "f8" },
   { doc_id := "f", chunk_id := "f9" }, { doc_id := "f", chunk_id := "f10" },
   { doc_id := "dA", chunk_id := "cA" }]

/-- A predict function scoring every pair 1/2. -/
def okPredict : PredictFn := fun ps => Except.ok (ps.map (fun _ => (1 : ℚ) / 2))

/-- A predict function that always raises. -/
def failPredict : PredictFn := fun _ => Except.error ()

/-- A fused search result carrying the text "hi". -/
def feEx : FusedEntry :=
  { doc_id := "d"
    chunk_id := "c"
    title := ""
    text := "hi"
    url := ""
    sect := ""
    lang := ""
    tags := []
    score := 0
    bm25_rank := none
    dense_rank := none
    bm25_score := 0
    dense_score := 0 }

/-- A high-scoring context that carries an explicit `chunk_id` key. -/
def ctxHello : Context :=
  { text := "hello", rerank_score := 9 / 10, chunk_id := some "real_chunk" }

/-- A low-scoring context. -/
def ctxLow : Context := { text := "x", rerank_score := 1 / 10 }

/-! Properties of the stable descending sort. -/

theorem mem_insertDescBy {α : Type} (key : α → ℚ) (x a : α) (l : List α) :
    a ∈ insertDescBy key x l ↔ a = x ∨ a ∈ l := by
  induction l with
  | nil => simp [insertDescBy]
  | cons y ys ih =>
    simp only [insertDescBy]
    split
    · simp [List.mem_cons]
    · simp only [List.mem_cons, ih]
      tauto

theorem insertDescBy_perm {α : Type} (key : α → ℚ) (x : α) (l : List α) :
    (insertDescBy key x l).Perm (x :: l) := by
  induction l with
  | nil => exact List.Perm.refl _
  | cons y ys ih =>
    simp only [insertDescBy]
    split
    · exact List.Perm.refl _
    · exact (ih.cons y).trans (List.Perm.swap x y ys)

theorem sortDescBy_perm {α : Type} (key : α → ℚ) (l : List α) :
    (sortDescBy key l).Perm l := by
  induction l with
  | nil => exact List.Perm.refl _
  | cons x xs ih => exact (insertDescBy_perm key x (sortDescBy key xs)).trans (ih.cons x)

theorem mem_sortDescBy {α : Type} (key : α → ℚ) (a : α) (l : List α) :
    a ∈ sortDescBy key l ↔ a ∈ l :=
  (sortDescBy_perm key l).mem_iff

theorem length_sortDescBy {α : Type} (key : α → ℚ) (l : List α) :
    (sortDescBy key l).length = l.length :=
  (sortDescBy_perm key l).length_eq

theorem pairwise_ge_insertDescBy {α : Type} (key : α → ℚ) (x : α) (l : List α)
    (h : l.Pairwise (fun a b => key b ≤ key a)) :
    (insertDescBy key x l).Pairwise (fun a b => key b ≤ key a) := by
  induction l with
  | nil => simp [insertDescBy]
  | cons y ys ih =>
    simp only [insertDescBy]
    rw [List.pairwise_cons] at h
    split
    · rename_i hyx
      refine List.Pairwise.cons ?_ (List.Pairwise.cons h.1 h.2)
      intro b hb
      rcases List.mem_cons.mp hb with rfl | hb
      · exact hyx
      · exact le_trans (h.1 b hb) hyx
    · rename_i hyx
      refine List.Pairwise.cons ?_ (ih h.2)
      intro b hb
      rcases (mem_insertDescBy key x b ys).mp hb with rfl | hb
      · exact le_of_lt (lt_of_not_le hyx)
      · exact h.1 b hb

theorem sortDescBy_sorted {α : Type} (key : α → ℚ) (l : List α) :
    (sortDescBy key l).Pairwise (fun a b => key b ≤ key a) := by
  induction l with
  | nil => simp [sortDescBy]
  | cons x xs ih => exact pairwise_ge_insertDescBy key x _ ih

theorem insertDescBy_pairwise {α : Type} {R : α → α → Prop} (key : α → ℚ)
    (hR : ∀ a b, key a ≠ key b → R a b) (x : α) (l : List α)
    (hl : l.Pairwise R) (hx : ∀ z ∈ l, R x z) :
    (insertDescBy key x l).Pairwise R := by
  induction l with
  | nil => simp [insertDescBy]
  | cons y ys ih =>
    simp only [insertDescBy]
    rw [List.pairwise_cons] at hl
    split
    · refine List.Pairwise.cons ?_ (List.Pairwise.cons hl.1 hl.2)
      intro b hb
      exact hx b hb
    · rename_i hyx
      have hne : key y ≠ key x := fun h => hyx (le_of_eq h)
      refine List.Pairwise.cons ?_ (ih hl.2 (fun z hz => hx z (List.mem_cons_of_mem y hz)))
      intro b hb
      rcases (mem_insertDescBy key x b ys).mp hb with rfl | hb
      · exact hR y b hne
      · exact hl.1 b hb

theorem sortDescBy_pairwise {α : Type} {R : α → α → Prop} (key : α → ℚ)
    (hR : ∀ a b, key a ≠ key b → R a b) (l : List α) (h : l.Pairwise R) :
    (sortDescBy key l).Pairwise R := by
  induction l with
  | nil => simp [sortDescBy]
  | cons x xs ih =>
    rw [List.pairwise_cons] at h
    refine insertDescBy_pairwise key hR x _ (ih h.2) ?_
    intro z hz
    exact h.1 z ((mem_sortDescBy key z xs).mp hz)

theorem filter_insertDescBy {α : Type} (p : α → Bool) (key : α → ℚ)
    (hp : ∀ a b, p a = true → p b = true → key a = key b) (x : α) (l : List α) :
    (insertDescBy key x l).filter p = (x :: l).filter p := by
  induction l with
  | nil => rfl
  | cons y ys ih =>
    simp only [insertDescBy]
    split
    · rfl
    · rename_i hyx
      by_cases hpx : p x = true <;> by_cases hpy : p y = true
      · exact absurd (le_of_eq (hp x y hpx hpy).symm) hyx
      · simp [List.filter_cons, hpx, hpy, ih]
      · simp [List.filter_cons, hpx, hpy, ih]
      · simp [List.filter_cons, hpx, hpy, ih]

theorem filter_sortDescBy {α : Type} (p : α → Bool) (key : α → ℚ)
    (hp : ∀ a b, p a = true → p b = true → key a = key b) (l : List α) :
    (sortDescBy key l).filter p = l.filter p := by
  induction l with
  | nil => rfl
  | cons x xs ih =>
    have h := filter_insertDescBy p key hp x (sortDescBy key xs)
    simp only [sortDescBy, h, List.filter_cons, ih]

/-! Characterization of the `scores` dict built by `_rrf_fuse`. -/

theorem ranked_map_snd {α β : Type} (g : α → β) (n : Nat) (l : List α) :
    (ranked n l).map (fun ir => g ir.2) = l.map g := by
  induction l generalizing n with
  | nil => rfl
  | cons x xs ih => simp [ranked, ih]

theorem length_ranked {α : Type} (n : Nat) (l : List α) :
    (ranked n l).length = l.length := by
  induction l generalizing n with
  | nil => rfl
  | cons x xs ih => simp [ranked, ih]

theorem getElem_ranked {α : Type} (n : Nat) (l : List α) (j : Nat) (h : j < l.length)
    (h' : j < (ranked n l).length) : (ranked n l)[j] = (n + j, l[j]) := by
  induction l generalizing n j with
  | nil => exact absurd h (Nat.not_lt_zero j)
  | cons x xs ih =>
    cases j with
    | zero => simp [ranked]
    | succ j =>
      have hj : j < xs.length := Nat.lt_of_succ_lt_succ h
      have hj' : j < (ranked (n + 1) xs).length := by
        rw [length_ranked]; exact hj
      simp only [ranked, List.getElem_cons_succ, ih (n + 1) j hj hj']
      simp [Nat.add_assoc, Nat.add_comm 1 j]

theorem mem_ranked_fst {α : Type} (n : Nat) (l : List α) (ir : Nat × α)
    (h : ir ∈ ranked n l) : n ≤ ir.1 := by
  induction l generalizing n with
  | nil => simp [ranked] at h
  | cons x xs ih =>
    rcases List.mem_cons.mp h with rfl | h
    · exact le_refl n
    · exact le_trans (Nat.le_succ n) (ih (n + 1) h)

theorem ranked_pairwise_fst {α : Type} (n : Nat) (l : List α) :
    (ranked n l).Pairwise (fun a b => a.1 < b.1) := by
  induction l generalizing n with
  | nil => simp [ranked]
  | cons x xs ih =>
    refine List.Pairwise.cons ?_ (ih (n + 1))
    intro b hb
    exact Nat.lt_of_lt_of_le (Nat.lt_succ_self n) (mem_ranked_fst (n + 1) xs b hb)

theorem keyOfEntry_bm25Entry (k i : Nat) (r : SearchResult) :
    keyOfEntry (bm25Entry k i r) = keyOfResult r := rfl

theorem entryPair_bm25Entry (k i : Nat) (r : SearchResult) :
    entryPair (bm25Entry k i r) = pairOf r := rfl

theorem keyOfEntry_denseEntry (k i : Nat) (r : SearchResult) :
    keyOfEntry (denseEntry k i r) = keyOfResult r := rfl

theorem entryPair_denseEntry (k i : Nat) (r : SearchResult) :
    entryPair (denseEntry k i r) = pairOf r := rfl

theorem keyOfEntry_denseUpd (k i : Nat) (r : SearchResult) (e : FusedEntry) :
    keyOfEntry (denseUpd k i r e) = keyOfEntry e := rfl

theorem entryPair_denseUpd (k i : Nat) (r : SearchResult) (e : FusedEntry) :
    entryPair (denseUpd k i r e) = entryPair e := rfl

theorem applyDense_key (k : Nat) (ds : List SearchResult) (n : Nat) (e : FusedEntry) :
    keyOfEntry (applyDense k ds n e) = keyOfEntry e := by
  induction ds generalizing n e with
  | nil => rfl
  | cons r rs ih =>
    simp only [applyDense]
    split
    · rw [ih, keyOfEntry_denseUpd]
    · rw [ih]

theorem applyDense_pair (k : Nat) (ds : List SearchResult) (n : Nat) (e : FusedEntry) :
    entryPair (applyDense k ds n e) = entryPair e := by
  induction ds generalizing n e with
  | nil => rfl
  | cons r rs ih =>
    simp only [applyDense]
    split
    · rw [ih, entryPair_denseUpd]
    · rw [ih]

theorem applyDense_bm25_rank (k : Nat) (ds : List SearchResult) (n : Nat) (e : FusedEntry) :
    (applyDense k ds n e).bm25_rank = e.bm25_rank := by
  induction ds generalizing n e with
  | nil => rfl
  | cons r rs ih =>
    simp only [applyDense]
    split
    · rw [ih]; rfl
    · rw [ih]

theorem applyDense_not_mem (k : Nat) (ds : List SearchResult) (n : Nat) (e : FusedEntry)
    (h : ∀ r ∈ ds, keyOfResult r ≠ keyOfEntry e) : applyDense k ds n e = e := by
  induction ds generalizing n with
  | nil => rfl
  | cons r rs ih =>
    simp only [applyDense]
    rw [if_neg, ih]
    · intro x hx
      exact h x (List.mem_cons_of_mem r hx)
    · intro hbeq
      exact h r (List.mem_cons_self r rs) (beq_iff_eq.mp hbeq).symm

theorem applyDense_found (k : Nat) (ds₁ : List SearchResult) (r : SearchResult)
    (ds₂ : List SearchResult) (n : Nat) (e : FusedEntry)
    (h1 : ∀ x ∈ ds₁, keyOfResult x ≠ keyOfEntry e)
    (hr : keyOfResult r = keyOfEntry e)
    (h2 : ∀ x ∈ ds₂, keyOfResult x ≠ keyOfEntry e) :
    applyDense k (ds₁ ++ r :: ds₂) n e = denseUpd k (n + ds₁.length) r e := by
  induction ds₁ generalizing n with
  | nil =>
    simp only [List.nil_append, applyDense]
    rw [if_pos (beq_iff_eq.mpr hr.symm)]
    rw [applyDense_not_mem]
    · simp
    · intro x hx
      rw [keyOfEntry_denseUpd]
      exact h2 x hx
  | cons x ds₁ ih =>
    simp only [List.cons_append, applyDense, List.append_eq]
    rw [if_neg]
    · rw [ih (n + 1) (fun y hy => h1 y (List.mem_cons_of_mem x hy))]
      congr 1
      simp [Nat.add_assoc, Nat.add_comm 1 ds₁.length]
    · intro hbeq
      exact h1 x (List.mem_cons_self x ds₁) (beq_iff_eq.mp hbeq).symm

theorem any_key_iff (A : List FusedEntry) (r : SearchResult) :
    (A.any (fun e => keyOfEntry e == keyOfResult r) = true) ↔
      keyOfResult r ∈ A.map keyOfEntry := by
  simp only [List.any_eq_true, List.mem_map, beq_iff_eq]

theorem bm25Entries_keys (k : Nat) (bm25 : List SearchResult) :
    (bm25Entries k bm25).map keyOfEntry = bm25.map keyOfResult := by
  simp only [bm25Entries, List.map_map]
  exact ranked_map_snd keyOfResult 1 bm25

theorem addBm25One_absent (k n : Nat) (r : SearchResult) (acc : List FusedEntry)
    (h : keyOfResult r ∉ acc.map keyOfEntry) :
    addBm25One k n r acc = acc ++ [bm25Entry k n r] := by
  unfold addBm25One
  rw [if_neg (fun hany => h ((any_key_iff acc r).mp hany))]

theorem addBm25_eq (k : Nat) (rs : List SearchResult) (n : Nat) (acc : List FusedEntry)
    (hdisj : ∀ r ∈ rs, keyOfResult r ∉ acc.map keyOfEntry)
    (hnodup : (rs.map keyOfResult).Nodup) :
    addBm25 k rs n acc = acc ++ (ranked n rs).map (fun ir => bm25Entry k ir.1 ir.2) := by
  induction rs generalizing n acc with
  | nil => simp [addBm25, ranked]
  | cons r rs ih =>
    rw [List.map_cons, List.nodup_cons] at hnodup
    have hdisj' : ∀ r' ∈ rs, keyOfResult r' ∉ (acc ++ [bm25Entry k n r]).map keyOfEntry := by
      intro r' hr' hmem
      rw [List.map_append] at hmem
      rcases List.mem_append.mp hmem with h1 | h2
      · exact hdisj r' (List.mem_cons_of_mem r hr') h1
      · have he : keyOfResult r' = keyOfResult r := by
          simpa [keyOfEntry_bm25Entry] using h2
        exact hnodup.1 (he ▸ List.mem_map_of_mem keyOfResult hr')
    simp only [addBm25]
    rw [addBm25One_absent k n r acc (hdisj r (List.mem_cons_self r rs)),
      ih (n + 1) _ hdisj' hnodup.2]
    simp [ranked, List.append_assoc]

theorem addBm25_base (k : Nat) (bm25 : List SearchResult)
    (h : (bm25.map keyOfResult).Nodup) :
    addBm25 k bm25 1 [] = bm25Entries k bm25 := by
  rw [addBm25_eq k bm25 1 [] (by simp) h]
  simp [bm25Entries]

theorem addDenseOne_present (k n : Nat) (r : SearchResult) (A : List FusedEntry)
    (h : keyOfResult r ∈ A.map keyOfEntry) :
    addDenseOne k n r A =
      A.map (fun e => if keyOfEntry e == keyOfResult r then denseUpd k n r e else e) := by
  unfold addDenseOne
  rw [if_pos ((any_key_iff A r).mpr h)]

theorem addDenseOne_absent (k n : Nat) (r : SearchResult) (A : List FusedEntry)
    (h : keyOfResult r ∉ A.map keyOfEntry) :
    addDenseOne k n r A = A ++ [denseEntry k n r] := by
  unfold addDenseOne
  rw [if_neg (fun hany => h ((any_key_iff A r).mp hany))]

theorem denseNews_cons_mem (k : Nat) (r : SearchResult) (ds : List SearchResult)
    (n : Nat) (keys : List String) (h : keyOfResult r ∈ keys) :
    denseNews k (r :: ds) n keys = denseNews k ds (n + 1) keys := by
  simp only [denseNews, ranked, List.filterMap_cons]
  rw [if_pos (List.elem_iff.mpr h)]

theorem denseNews_cons_not_mem (k : Nat) (r : SearchResult) (ds : List SearchResult)
    (n : Nat) (keys : List String) (h : keyOfResult r ∉ keys) :
    denseNews k (r :: ds) n keys = denseEntry k n r :: denseNews k ds (n + 1) keys := by
  simp only [denseNews, ranked, List.filterMap_cons]
  rw [if_neg (fun hc => h (List.elem_iff.mp hc))]

theorem denseNews_keys_congr (k : Nat) (ds : List SearchResult) (n : Nat)
    (keys1 keys2 : List String)
    (h : ∀ r ∈ ds, (keyOfResult r ∈ keys1 ↔ keyOfResult r ∈ keys2)) :
    denseNews k ds n keys1 = denseNews k ds n keys2 := by
  induction ds generalizing n with
  | nil => rfl
  | cons r rs ih =>
    have h' : ∀ r' ∈ rs, (keyOfResult r' ∈ keys1 ↔ keyOfResult r' ∈ keys2) :=
      fun r' hr' => h r' (List.mem_cons_of_mem r hr')
    by_cases hm : keyOfResult r ∈ keys1
    · rw [denseNews_cons_mem k r rs n keys1 hm,
        denseNews_cons_mem k r rs n keys2 ((h r (List.mem_cons_self r rs)).mp hm),
        ih (n + 1) h']
    · rw [denseNews_cons_not_mem k r rs n keys1 hm,
        denseNews_cons_not_mem k r rs n keys2 (fun hc => hm ((h r (List.mem_cons_self r rs)).mpr hc)),
        ih (n + 1) h']

theorem addDense_eq (k : Nat) (ds : List SearchResult) (n : Nat) (A : List FusedEntry)
    (hnodup : (ds.map keyOfResult).Nodup) :
    addDense k ds n A = A.map (applyDense k ds n) ++ denseNews k ds n (A.map keyOfEntry) := by
  induction ds generalizing n A with
  | nil =>
    simp only [addDense, denseNews, ranked, List.filterMap_nil, List.append_nil]
    rw [List.map_congr_left (fun a _ => (rfl : applyDense k [] n a = a))]
    exact (List.map_id A).symm
  | cons r rs ih =>
    rw [List.map_cons, List.nodup_cons] at hnodup
    simp only [addDense]
    by_cases hm : keyOfResult r ∈ A.map keyOfEntry
    · rw [addDenseOne_present k n r A hm, ih (n + 1) _ hnodup.2]
      have hkeys : ((A.map (fun e => if keyOfEntry e == keyOfResult r then denseUpd k n r e else e)).map keyOfEntry) = A.map keyOfEntry := by
        rw [List.map_map]
        apply List.map_congr_left
        intro a _
        by_cases hk : (keyOfEntry a == keyOfResult r) = true
        · show keyOfEntry (if keyOfEntry a == keyOfResult r then denseUpd k n r a else a) = _
          rw [if_pos hk, keyOfEntry_denseUpd]
        · show keyOfEntry (if keyOfEntry a == keyOfResult r then denseUpd k n r a else a) = _
          rw [if_neg hk]
      rw [hkeys, List.map_map, denseNews_cons_mem k r rs n _ hm]
      congr 1
    · rw [addDenseOne_absent k n r A hm, ih (n + 1) _ hnodup.2]
      have hde : applyDense k rs (n + 1) (denseEntry k n r) = denseEntry k n r := by
        apply applyDense_not_mem
        intro x hx heq
        rw [keyOfEntry_denseEntry] at heq
        exact hnodup.1 (heq ▸ List.mem_map_of_mem keyOfResult hx)
      have hA : ∀ a ∈ A, applyDense k rs (n + 1) a = applyDense k (r :: rs) n a := by
        intro a ha
        have hk : ¬(keyOfEntry a == keyOfResult r) = true := by
          intro hbeq
          exact hm ((beq_iff_eq.mp hbeq) ▸ List.mem_map_of_mem keyOfEntry ha)
        show _ = applyDense k rs (n + 1) (if keyOfEntry a == keyOfResult r then denseUpd k n r a else a)
        rw [if_neg hk]
      have hnews : denseNews k rs (n + 1) ((A ++ [denseEntry k n r]).map keyOfEntry) =
          denseNews k rs (n + 1) (A.map keyOfEntry) := by
        apply denseNews_keys_congr
        intro x hx
        have hxr : keyOfResult x ≠ keyOfResult r :=
          fun heq => hnodup.1 (heq ▸ List.mem_map_of_mem keyOfResult hx)
        simp [List.mem_append, keyOfEntry_denseEntry, hxr]
      rw [List.map_append, List.map_congr_left hA, hnews,
        denseNews_cons_not_mem k r rs n _ hm]
      simp [hde, List.append_assoc]

theorem scoresList_eq (k : Nat) (bm25 dense : List SearchResult)
    (hb : (bm25.map keyOfResult).Nodup) (hd : (dense.map keyOfResult).Nodup) :
    scoresList k bm25 dense =
      (bm25Entries k bm25).map (applyDense k dense 1) ++
        denseNews k dense 1 (bm25.map keyOfResult) := by
  unfold scoresList
  rw [addBm25_base k bm25 hb, addDense_eq k dense 1 _ hd, bm25Entries_keys]

/-! Injectivity of the dict key in terms of the chunk identity. -/

theorem append_colon_inj (l1 m1 l2 m2 : List Char)
    (h1 : ':' ∉ l1) (h2 : ':' ∉ l2)
    (h : l1 ++ ':' :: m1 = l2 ++ ':' :: m2) : l1 = l2 ∧ m1 = m2 := by
  induction l1 generalizing l2 with
  | nil =>
    cases l2 with
    | nil => simpa using h
    | cons c l2 =>
      rw [List.nil_append, List.cons_append] at h
      injection h with hc _
      exact absurd (hc ▸ List.mem_cons_self c l2) h2
  | cons a l1 ih =>
    cases l2 with
    | nil =>
      rw [List.cons_append, List.nil_append] at h
      injection h with hc _
      exact absurd (hc ▸ List.mem_cons_self a l1) h1
    | cons c l2 =>
      rw [List.cons_append, List.cons_append] at h
      injection h with hc htl
      have hrec := ih l2 (fun hm => h1 (List.mem_cons_of_mem a hm))
        (fun hm => h2 (List.mem_cons_of_mem c hm)) htl
      exact ⟨by rw [hc, hrec.1], hrec.2⟩

theorem pyKey_inj (d1 c1 d2 c2 : String) (h1 : colonFree d1) (h2 : colonFree d2)
    (h : pyKey d1 c1 = pyKey d2 c2) : d1 = d2 ∧ c1 = c2 := by
  unfold pyKey at h
  have hd : d1.data ++ ':' :: c1.data = d2.data ++ ':' :: c2.data := by
    have hdata := congrArg String.data h
    simpa [String.data_append] using hdata
  obtain ⟨hd', hc'⟩ := append_colon_inj d1.data c1.data d2.data c2.data h1 h2 hd
  constructor
  · exact congrArg String.mk hd'
  · exact congrArg String.mk hc'

theorem pyKey_congr (d1 c1 d2 c2 : String) (h1 : d1 = d2) (h2 : c1 = c2) :
    pyKey d1 c1 = pyKey d2 c2 := by rw [h1, h2]

theorem keyOfResult_of_pair (r1 r2 : SearchResult) (h : pairOf r1 = pairOf r2) :
    keyOfResult r1 = keyOfResult r2 :=
  pyKey_congr _ _ _ _ (congrArg Prod.fst h) (congrArg Prod.snd h)

theorem key_eq_pair_eq (r : SearchResult) (e : FusedEntry)
    (hr : colonFree r.doc_id) (he : colonFree e.doc_id)
    (h : keyOfResult r = keyOfEntry e) : pairOf r = entryPair e := by
  obtain ⟨hd, hc⟩ := pyKey_inj _ _ _ _ hr he h
  unfold pairOf entryPair
  rw [hd, hc]

theorem keyOfResult_of_pair_entry (r : SearchResult) (e : FusedEntry)
    (h : pairOf r = entryPair e) : keyOfResult r = keyOfEntry e :=
  pyKey_congr _ _ _ _ (congrArg Prod.fst h) (congrArg Prod.snd h)

/-! Indexed lemmas connecting the loops to 1-based ranks. -/

theorem findIdx?_map_nodup {α β : Type} [BEq β] [LawfulBEq β] (f : α → β)
    (l : List α) (h : (l.map f).Nodup) (j : Nat) (hj : j < l.length) :
    l.findIdx? (fun x => f x == f (l[j])) = some j := by
  induction l generalizing j with
  | nil => exact absurd hj (Nat.not_lt_zero j)
  | cons x xs ih =>
    rw [List.map_cons, List.nodup_cons] at h
    cases j with
    | zero => simp [List.findIdx?_cons]
    | succ j =>
      have hj' : j < xs.length := Nat.lt_of_succ_lt_succ hj
      have hne : ¬(f x == f ((x :: xs)[j + 1])) = true := by
        intro hbeq
        refine h.1 ?_
        rw [beq_iff_eq.mp hbeq]
        simp only [List.getElem_cons_succ]
        exact List.mem_map_of_mem f (List.getElem_mem hj')
      rw [List.findIdx?_cons, if_neg hne]
      simp only [List.getElem_cons_succ]
      rw [List.findIdx?_succ, ih h.2 j hj']
      rfl

theorem rankOf?_getElem (l : List SearchResult) (h : (l.map pairOf).Nodup)
    (j : Nat) (hj : j < l.length) : rankOf? (pairOf (l[j])) l = some (j + 1) := by
  unfold rankOf?
  rw [findIdx?_map_nodup pairOf l h j hj]
  rfl

theorem rankOf?_eq_none (p : String × String) (l : List SearchResult)
    (h : ∀ r ∈ l, pairOf r ≠ p) : rankOf? p l = none := by
  unfold rankOf?
  rw [List.findIdx?_eq_none_iff.mpr]
  · rfl
  · intro x hx
    exact beq_eq_false_iff_ne.mpr (h x hx)

theorem applyDense_eq_of_key (k : Nat) (ds : List SearchResult)
    (hnodup : (ds.map keyOfResult).Nodup) (e : FusedEntry) (j : Nat)
    (hj : j < ds.length) (hkey : keyOfResult (ds[j]) = keyOfEntry e) (n : Nat) :
    applyDense k ds n e = denseUpd k (n + j) (ds[j]) e := by
  induction ds generalizing j n with
  | nil => exact absurd hj (Nat.not_lt_zero j)
  | cons r rs ih =>
    rw [List.map_cons, List.nodup_cons] at hnodup
    cases j with
    | zero =>
      simp only [List.getElem_cons_zero] at hkey
      simp only [applyDense]
      rw [if_pos (beq_iff_eq.mpr hkey.symm)]
      rw [applyDense_not_mem]
      · simp
      · intro x hx
        rw [keyOfEntry_denseUpd, ← hkey]
        intro heq
        exact hnodup.1 (heq ▸ List.mem_map_of_mem keyOfResult hx)
    | succ j =>
      have hj' : j < rs.length := Nat.lt_of_succ_lt_succ hj
      simp only [List.getElem_cons_succ] at hkey ⊢
      simp only [applyDense]
      rw [if_neg]
      · rw [ih hnodup.2 j hj' hkey (n + 1)]
        congr 1
        omega
      · intro hbeq
        have : keyOfResult r = keyOfResult (rs[j]) := by
          rw [hkey]
          exact (beq_iff_eq.mp hbeq).symm
        exact hnodup.1 (this ▸ List.mem_map_of_mem keyOfResult (List.getElem_mem hj'))

theorem mem_denseNews_elim (k : Nat) (ds : List SearchResult) (n : Nat)
    (keys : List String) (e : FusedEntry) (h : e ∈ denseNews k ds n keys) :
    ∃ j, ∃ (hj : j < ds.length),
      keyOfResult (ds[j]) ∉ keys ∧ e = denseEntry k (n + j) (ds[j]) := by
  induction ds generalizing n with
  | nil => simp [denseNews, ranked] at h
  | cons r rs ih =>
    by_cases hm : keyOfResult r ∈ keys
    · rw [denseNews_cons_mem k r rs n keys hm] at h
      obtain ⟨j, hj, hk, he⟩ := ih (n + 1) h
      exact ⟨j + 1, Nat.succ_lt_succ hj, by simpa using hk, by simpa [Nat.add_assoc, Nat.add_comm 1 j] using he⟩
    · rw [denseNews_cons_not_mem k r rs n keys hm] at h
      rcases List.mem_cons.mp h with rfl | h
      · exact ⟨0, Nat.succ_pos rs.length, by simpa using hm, by simp⟩
      · obtain ⟨j, hj, hk, he⟩ := ih (n + 1) h
        exact ⟨j + 1, Nat.succ_lt_succ hj, by simpa using hk, by simpa [Nat.add_assoc, Nat.add_comm 1 j] using he⟩

theorem mem_denseNews_intro (k : Nat) (ds : List SearchResult) (n : Nat)
    (keys : List String) (j : Nat) (hj : j < ds.length)
    (hk : keyOfResult (ds[j]) ∉ keys) :
    denseEntry k (n + j) (ds[j]) ∈ denseNews k ds n keys := by
  induction ds generalizing n j with
  | nil => exact absurd hj (Nat.not_lt_zero j)
  | cons r rs ih =>
    cases j with
    | zero =>
      simp only [List.getElem_cons_zero] at hk ⊢
      rw [denseNews_cons_not_mem k r rs n keys hk]
      simp
    | succ j =>
      have hj' : j < rs.length := Nat.lt_of_succ_lt_succ hj
      simp only [List.getElem_cons_succ] at hk ⊢
      by_cases hm : keyOfResult r ∈ keys
      · rw [denseNews_cons_mem k r rs n keys hm]
        have := ih (n + 1) j hj' hk
        simpa [Nat.add_assoc, Nat.add_comm 1 j] using this
      · rw [denseNews_cons_not_mem k r rs n keys hm]
        refine List.mem_cons_of_mem _ ?_
        have := ih (n + 1) j hj' hk
        simpa [Nat.add_assoc, Nat.add_comm 1 j] using this

theorem denseNews_pairs_sublist (k : Nat) (ds : List SearchResult) (n : Nat)
    (keys : List String) :
    ((denseNews k ds n keys).map entryPair).Sublist (ds.map pairOf) := by
  induction ds generalizing n with
  | nil => simp [denseNews, ranked]
  | cons r rs ih =>
    by_cases hm : keyOfResult r ∈ keys
    · rw [denseNews_cons_mem k r rs n keys hm, List.map_cons]
      exact List.Sublist.cons (pairOf r) (ih (n + 1))
    · rw [denseNews_cons_not_mem k r rs n keys hm, List.map_cons, List.map_cons,
        entryPair_denseEntry]
      exact List.Sublist.cons₂ (pairOf r) (ih (n + 1))

/-! Facts about the fused `scores` dict under the spec's data-model
invariants: distinct `(doc_id, chunk_id)` pairs within each rank list and
colon-free `doc_id`s (so that the string key determines the pair). -/

theorem nodup_keys (l : List SearchResult) (hc : ∀ r ∈ l, colonFree r.doc_id)
    (h : (l.map pairOf).Nodup) : (l.map keyOfResult).Nodup := by
  induction l with
  | nil => simp
  | cons r rs ih =>
    rw [List.map_cons, List.nodup_cons] at h ⊢
    refine ⟨?_, ih (fun x hx => hc x (List.mem_cons_of_mem r hx)) h.2⟩
    intro hmem
    obtain ⟨x, hx, hkey⟩ := List.mem_map.mp hmem
    have hpair : pairOf x = pairOf r := by
      obtain ⟨hd, hcc⟩ := pyKey_inj _ _ _ _ (hc x (List.mem_cons_of_mem r hx))
        (hc r (List.mem_cons_self r rs)) hkey
      unfold pairOf
      rw [hd, hcc]
    exact h.1 (hpair ▸ List.mem_map_of_mem pairOf hx)

theorem length_bm25Entries (k : Nat) (bm25 : List SearchResult) :
    (bm25Entries k bm25).length = bm25.length := by
  simp [bm25Entries, length_ranked]

theorem getElem_bm25Entries (k : Nat) (bm25 : List SearchResult) (j : Nat)
    (hj : j < bm25.length) (hj2 : j < (bm25Entries k bm25).length) :
    (bm25Entries k bm25)[j] = bm25Entry k (1 + j) (bm25[j]) := by
  simp only [bm25Entries]
  rw [List.getElem_map, getElem_ranked 1 bm25 j hj (by rw [length_ranked]; exact hj)]

theorem mem_bm25_part_elim (k : Nat) (bm25 dense : List SearchResult) (e : FusedEntry)
    (he : e ∈ (bm25Entries k bm25).map (applyDense k dense 1)) :
    ∃ j, ∃ (hj : j < bm25.length),
      e = applyDense k dense 1 (bm25Entry k (1 + j) (bm25[j])) := by
  obtain ⟨b, hb, rfl⟩ := List.mem_map.mp he
  obtain ⟨j, hj, hbj⟩ := List.mem_iff_getElem.mp hb
  have hj' : j < bm25.length := by
    rw [← length_bm25Entries k bm25]
    exact hj
  refine ⟨j, hj', ?_⟩
  rw [← hbj, getElem_bm25Entries k bm25 j hj' hj]

theorem bm25_part_pairs (k : Nat) (bm25 dense : List SearchResult) :
    (((bm25Entries k bm25).map (applyDense k dense 1)).map entryPair) =
      bm25.map pairOf := by
  rw [List.map_map]
  have h1 : ((bm25Entries k bm25).map (entryPair ∘ applyDense k dense 1)) =
      (bm25Entries k bm25).map entryPair :=
    List.map_congr_left (fun a _ => applyDense_pair k dense 1 a)
  rw [h1]
  simp only [bm25Entries, List.map_map]
  exact ranked_map_snd pairOf 1 bm25

/-- The fused score of an entry of the `scores` dict equals the RRF
formula of the spec: one reciprocal-rank contribution per rank list in
which its `(doc_id, chunk_id)` pair appears. -/
theorem scoresList_score (k : Nat) (bm25 dense : List SearchResult)
    (hbp : (bm25.map pairOf).Nodup) (hdp : (dense.map pairOf).Nodup)
    (hbc : ∀ r ∈ bm25, colonFree r.doc_id) (hdc : ∀ r ∈ dense, colonFree r.doc_id)
    (e : FusedEntry) (he : e ∈ scoresList k bm25 dense) :
    e.score = contrib k (entryPair e) bm25 + contrib k (entryPair e) dense := by
  have hbk : (bm25.map keyOfResult).Nodup := nodup_keys bm25 hbc hbp
  have hdk : (dense.map keyOfResult).Nodup := nodup_keys dense hdc hdp
  rw [scoresList_eq k bm25 dense hbk hdk] at he
  rcases List.mem_append.mp he with hB | hN
  · obtain ⟨j, hj, rfl⟩ := mem_bm25_part_elim k bm25 dense e hB
    set b := bm25Entry k (1 + j) (bm25[j]) with hb
    have hbpair : entryPair b = pairOf (bm25[j]) := entryPair_bm25Entry _ _ _
    have hbdoc : colonFree b.doc_id := hbc (bm25[j]) (List.getElem_mem hj)
    have hcb : contrib k (entryPair b) bm25 = 1 / ((k : ℚ) + ((j + 1 : Nat) : ℚ)) := by
      rw [hbpair]
      unfold contrib
      rw [rankOf?_getElem bm25 hbp j hj]
    by_cases hm : keyOfEntry b ∈ dense.map keyOfResult
    · obtain ⟨r', hr', hkey⟩ := List.mem_map.mp hm
      obtain ⟨j', hj', hrj⟩ := List.mem_iff_getElem.mp hr'
      have hkey' : keyOfResult (dense[j']) = keyOfEntry b := by rw [hrj]; exact hkey
      rw [applyDense_eq_of_key k dense hdk b j' hj' hkey' 1]
      have hpair' : pairOf (dense[j']) = entryPair b :=
        key_eq_pair_eq (dense[j']) b (hdc (dense[j']) (List.getElem_mem hj')) hbdoc hkey'
      have hcd : contrib k (entryPair b) dense = 1 / ((k : ℚ) + ((j' + 1 : Nat) : ℚ)) := by
        unfold contrib
        rw [← hpair', rankOf?_getElem dense hdp j' hj']
      rw [entryPair_denseUpd, hcb, hcd]
      have hupd : (denseUpd k (1 + j') (dense[j']) b).score =
          b.score + 1 / ((k : ℚ) + ((1 + j' : Nat) : ℚ)) := rfl
      have hbscore : b.score = 1 / ((k : ℚ) + ((1 + j : Nat) : ℚ)) := rfl
      rw [hupd, hbscore, Nat.add_comm 1 j, Nat.add_comm 1 j']
    · have hnone : applyDense k dense 1 b = b := by
        apply applyDense_not_mem
        intro x hx heq
        exact hm (heq ▸ List.mem_map_of_mem keyOfResult hx)
      rw [hnone]
      have hcd : contrib k (entryPair b) dense = 0 := by
        unfold contrib
        rw [rankOf?_eq_none]
        intro x hx heq
        exact hm ((keyOfResult_of_pair_entry x b heq) ▸ List.mem_map_of_mem keyOfResult hx)
      rw [hcb, hcd]
      have hbscore : b.score = 1 / ((k : ℚ) + ((1 + j : Nat) : ℚ)) := rfl
      rw [hbscore, Nat.add_comm 1 j, add_zero]
  · obtain ⟨j, hj, hknotin, rfl⟩ := mem_denseNews_elim k dense 1 (bm25.map keyOfResult) e hN
    have hpair : entryPair (denseEntry k (1 + j) (dense[j])) = pairOf (dense[j]) :=
      entryPair_denseEntry _ _ _
    have hcd : contrib k (pairOf (dense[j])) dense = 1 / ((k : ℚ) + ((j + 1 : Nat) : ℚ)) := by
      unfold contrib
      rw [rankOf?_getElem dense hdp j hj]
    have hcb : contrib k (pairOf (dense[j])) bm25 = 0 := by
      unfold contrib
      rw [rankOf?_eq_none]
      intro x hx heq
      exact hknotin ((keyOfResult_of_pair x (dense[j]) heq) ▸
        List.mem_map_of_mem keyOfResult hx)
    rw [hpair, hcb, hcd]
    have hscore : (denseEntry k (1 + j) (dense[j])).score =
        1 / ((k : ℚ) + ((1 + j : Nat) : ℚ)) := rfl
    rw [hscore, Nat.add_comm 1 j, zero_add]

theorem key_eq_pair_eq_rr (r1 r2 : SearchResult)
    (h1 : colonFree r1.doc_id) (h2 : colonFree r2.doc_id)
    (h : keyOfResult r1 = keyOfResult r2) : pairOf r1 = pairOf r2 := by
  obtain ⟨hd, hc⟩ := pyKey_inj _ _ _ _ h1 h2 h
  unfold pairOf
  rw [hd, hc]

/-- Every `(doc_id, chunk_id)` pair of either rank list shows up in the
fused dict, and nothing else does. -/
theorem mem_scoresList_pairs (k : Nat) (bm25 dense : List SearchResult)
    (hbp : (bm25.map pairOf).Nodup) (hdp : (dense.map pairOf).Nodup)
    (hbc : ∀ r ∈ bm25, colonFree r.doc_id) (hdc : ∀ r ∈ dense, colonFree r.doc_id)
    (p : String × String) :
    p ∈ (scoresList k bm25 dense).map entryPair ↔
      p ∈ bm25.map pairOf ∨ p ∈ dense.map pairOf := by
  have hbk : (bm25.map keyOfResult).Nodup := nodup_keys bm25 hbc hbp
  have hdk : (dense.map keyOfResult).Nodup := nodup_keys dense hdc hdp
  rw [scoresList_eq k bm25 dense hbk hdk, List.map_append, List.mem_append,
    bm25_part_pairs]
  constructor
  · rintro (h | h)
    · exact Or.inl h
    · obtain ⟨e, he, rfl⟩ := List.mem_map.mp h
      obtain ⟨j, hj, _, rfl⟩ := mem_denseNews_elim k dense 1 (bm25.map keyOfResult) e he
      refine Or.inr ?_
      rw [entryPair_denseEntry]
      exact List.mem_map_of_mem pairOf (List.getElem_mem hj)
  · rintro (h | h)
    · exact Or.inl h
    · by_cases hb : p ∈ bm25.map pairOf
      · exact Or.inl hb
      · obtain ⟨r, hr, rfl⟩ := List.mem_map.mp h
        obtain ⟨j, hj, hrj⟩ := List.mem_iff_getElem.mp hr
        have hknot : keyOfResult (dense[j]) ∉ bm25.map keyOfResult := by
          intro hkin
          obtain ⟨x, hx, hkx⟩ := List.mem_map.mp hkin
          have hpx : pairOf x = pairOf (dense[j]) :=
            key_eq_pair_eq_rr x (dense[j]) (hbc x hx)
              (hdc (dense[j]) (List.getElem_mem hj)) hkx
          refine hb ?_
          rw [← hrj, ← hpx]
          exact List.mem_map_of_mem pairOf hx
        have hmem := mem_denseNews_intro k dense 1 (bm25.map keyOfResult) j hj hknot
        refine Or.inr ?_
        have hpe : entryPair (denseEntry k (1 + j) (dense[j])) = pairOf r := by
          rw [entryPair_denseEntry, hrj]
        exact hpe ▸ List.mem_map_of_mem entryPair hmem

/-- The fused dict holds each `(doc_id, chunk_id)` pair at most once. -/
theorem nodup_scoresList_pairs (k : Nat) (bm25 dense : List SearchResult)
    (hbp : (bm25.map pairOf).Nodup) (hdp : (dense.map pairOf).Nodup)
    (hbc : ∀ r ∈ bm25, colonFree r.doc_id) (hdc : ∀ r ∈ dense, colonFree r.doc_id) :
    ((scoresList k bm25 dense).map entryPair).Nodup := by
  have hbk : (bm25.map keyOfResult).Nodup := nodup_keys bm25 hbc hbp
  have hdk : (dense.map keyOfResult).Nodup := nodup_keys dense hdc hdp
  rw [scoresList_eq k bm25 dense hbk hdk, List.map_append, bm25_part_pairs,
    List.nodup_append]
  refine ⟨hbp, (denseNews_pairs_sublist k dense 1 _).nodup hdp, ?_⟩
  intro a ha hb
  obtain ⟨e, he, rfl⟩ := List.mem_map.mp hb
  obtain ⟨j, hj, hknot, rfl⟩ := mem_denseNews_elim k dense 1 (bm25.map keyOfResult) e he
  rw [entryPair_denseEntry] at ha
  obtain ⟨x, hx, hpx⟩ := List.mem_map.mp ha
  exact hknot ((keyOfResult_of_pair x (dense[j]) hpx) ▸ List.mem_map_of_mem keyOfResult hx)

theorem bm25Entry_bm25_rank (k i : Nat) (r : SearchResult) :
    (bm25Entry k i r).bm25_rank = some i := rfl

theorem denseEntry_bm25_rank (k i : Nat) (r : SearchResult) :
    (denseEntry k i r).bm25_rank = none := rfl

theorem denseEntry_dense_rank (k i : Nat) (r : SearchResult) :
    (denseEntry k i r).dense_rank = some i := rfl

theorem pairwise_denseNews (k : Nat) (ds : List SearchResult) (n : Nat)
    (keys : List String) :
    (denseNews k ds n keys).Pairwise (fun a b => tieLt (tieKey a) (tieKey b)) := by
  induction ds generalizing n with
  | nil => simp [denseNews, ranked]
  | cons r rs ih =>
    by_cases hm : keyOfResult r ∈ keys
    · rw [denseNews_cons_mem k r rs n keys hm]
      exact ih (n + 1)
    · rw [denseNews_cons_not_mem k r rs n keys hm]
      refine List.Pairwise.cons ?_ (ih (n + 1))
      intro e he
      obtain ⟨j, hj, _, rfl⟩ := mem_denseNews_elim k rs (n + 1) keys e he
      refine Or.inr ⟨rfl, ?_⟩
      show WithTop.some n < WithTop.some (n + 1 + j)
      rw [WithTop.coe_lt_coe]
      omega

/-- Entries of the fused dict appear in strictly increasing tie-key
order: all BM25-seen entries first (in BM25 rank order), then dense-only
entries (in dense rank order). -/
theorem pairwise_tie_scoresList (k : Nat) (bm25 dense : List SearchResult)
    (hbp : (bm25.map pairOf).Nodup) (hdp : (dense.map pairOf).Nodup)
    (hbc : ∀ r ∈ bm25, colonFree r.doc_id) (hdc : ∀ r ∈ dense, colonFree r.doc_id) :
    (scoresList k bm25 dense).Pairwise (fun a b => tieLt (tieKey a) (tieKey b)) := by
  have hbk : (bm25.map keyOfResult).Nodup := nodup_keys bm25 hbc hbp
  have hdk : (dense.map keyOfResult).Nodup := nodup_keys dense hdc hdp
  rw [scoresList_eq k bm25 dense hbk hdk, List.pairwise_append]
  refine ⟨?_, pairwise_denseNews k dense 1 _, ?_⟩
  · rw [bm25Entries, List.map_map]
    rw [List.pairwise_map]
    refine (ranked_pairwise_fst 1 bm25).imp ?_
    intro a b hab
    refine Or.inl ?_
    have ha : (applyDense k dense 1 (bm25Entry k a.1 a.2)).bm25_rank = some a.1 := by
      rw [applyDense_bm25_rank, bm25Entry_bm25_rank]
    have hb : (applyDense k dense 1 (bm25Entry k b.1 b.2)).bm25_rank = some b.1 := by
      rw [applyDense_bm25_rank, bm25Entry_bm25_rank]
    show toTopRank (applyDense k dense 1 (bm25Entry k a.1 a.2)).bm25_rank <
      toTopRank (applyDense k dense 1 (bm25Entry k b.1 b.2)).bm25_rank
    rw [ha, hb]
    show WithTop.some a.1 < WithTop.some b.1
    rw [WithTop.coe_lt_coe]
    exact hab
  · intro a ha b hb
    obtain ⟨j, hj, rfl⟩ := mem_bm25_part_elim k bm25 dense a ha
    obtain ⟨j', hj', _, rfl⟩ := mem_denseNews_elim k dense 1 (bm25.map keyOfResult) b hb
    refine Or.inl ?_
    have ha' : (applyDense k dense 1 (bm25Entry k (1 + j) (bm25[j]))).bm25_rank =
        some (1 + j) := by
      rw [applyDense_bm25_rank, bm25Entry_bm25_rank]
    show toTopRank (applyDense k dense 1 (bm25Entry k (1 + j) (bm25[j]))).bm25_rank <
      toTopRank (denseEntry k (1 + j') (dense[j'])).bm25_rank
    rw [ha', denseEntry_bm25_rank]
    exact WithTop.coe_lt_top (1 + j)

/-! Claim theorems for the fusion ranker. -/

/-- C4 (amended): for every pair of input rank lists whose
`(doc_id, chunk_id)` pairs are pairwise distinct within each list and
whose `doc_id`s contain no colon, fusion produces each distinct
`(doc_id, chunk_id)` key exactly once (no duplicates, and exactly the
keys occurring in either list), with `fusion_score` equal to the sum over
the lists where it appears of `1/(k_rrf + rank)` using 1-based ranks and
exactly one contribution per list; the output is ordered by
non-increasing `fusion_score` and truncated to `top_k` with no padding.
Without those hypotheses the claim fails, because the dict key
`f"{doc_id}:{chunk_id}"` can collide for distinct pairs and a duplicated
pair contributes once per occurrence. -/
theorem claimC4_fusion_spec (k top_k : Nat) (bm25 dense : List SearchResult)
    (hbp : (bm25.map pairOf).Nodup) (hdp : (dense.map pairOf).Nodup)
    (hbc : ∀ r ∈ bm25, colonFree r.doc_id) (hdc : ∀ r ∈ dense, colonFree r.doc_id) :
    ((sortDescBy FusedEntry.score (scoresList k bm25 dense)).map entryPair).Nodup ∧
    (∀ p, p ∈ (sortDescBy FusedEntry.score (scoresList k bm25 dense)).map entryPair ↔
      p ∈ bm25.map pairOf ∨ p ∈ dense.map pairOf) ∧
    (∀ e ∈ sortDescBy FusedEntry.score (scoresList k bm25 dense),
      e.score = contrib k (entryPair e) bm25 + contrib k (entryPair e) dense) ∧
    (rrf_fuse k bm25 dense top_k).Pairwise (fun a b => b.score ≤ a.score) ∧
    rrf_fuse k bm25 dense top_k =
      (sortDescBy FusedEntry.score (scoresList k bm25 dense)).take top_k ∧
    (rrf_fuse k bm25 dense top_k).length =
      min top_k (sortDescBy FusedEntry.score (scoresList k bm25 dense)).length := by
  have hperm := sortDescBy_perm FusedEntry.score (scoresList k bm25 dense)
  have hpermMap := hperm.map entryPair
  refine ⟨?_, ?_, ?_, ?_, rfl, ?_⟩
  · exact hpermMap.nodup_iff.mpr
      (nodup_scoresList_pairs k bm25 dense hbp hdp hbc hdc)
  · intro p
    rw [hpermMap.mem_iff]
    exact mem_scoresList_pairs k bm25 dense hbp hdp hbc hdc p
  · intro e he
    exact scoresList_score k bm25 dense hbp hdp hbc hdc e (hperm.mem_iff.mp he)
  · exact List.Pairwise.sublist (List.take_sublist top_k _)
      (sortDescBy_sorted FusedEntry.score (scoresList k bm25 dense))
  · unfold rrf_fuse
    exact List.length_take top_k (sortDescBy FusedEntry.score (scoresList k bm25 dense))

/-- C4 witness: the amended claim evaluated at `k_rrf = 60`, `top_k = 10`
and the one-hit lists `bm25Ex`, `denseEx`. -/
theorem claimC4_fusion_spec_witness :
    ((bm25Ex.map pairOf).Nodup ∧ (denseEx.map pairOf).Nodup ∧
      (∀ r ∈ bm25Ex, colonFree r.doc_id) ∧ (∀ r ∈ denseEx, colonFree r.doc_id)) ∧
    (((sortDescBy FusedEntry.score (scoresList 60 bm25Ex denseEx)).map entryPair).Nodup ∧
    (∀ p, p ∈ (sortDescBy FusedEntry.score (scoresList 60 bm25Ex denseEx)).map entryPair ↔
      p ∈ bm25Ex.map pairOf ∨ p ∈ denseEx.map pairOf) ∧
    (∀ e ∈ sortDescBy FusedEntry.score (scoresList 60 bm25Ex denseEx),
      e.score = contrib 60 (entryPair e) bm25Ex + contrib 60 (entryPair e) denseEx) ∧
    (rrf_fuse 60 bm25Ex denseEx 10).Pairwise (fun a b => b.score ≤ a.score) ∧
    rrf_fuse 60 bm25Ex denseEx 10 =
      (sortDescBy FusedEntry.score (scoresList 60 bm25Ex denseEx)).take 10 ∧
    (rrf_fuse 60 bm25Ex denseEx 10).length =
      min 10 (sortDescBy FusedEntry.score (scoresList 60 bm25Ex denseEx)).length) :=
  ⟨⟨by decide, by decide, by decide, by decide⟩,
    claimC4_fusion_spec 60 10 bm25Ex denseEx (by decide) (by decide) (by decide) (by decide)⟩

/-- C4 counterexample: with `doc_id = "a:b", chunk_id = "c"` in the
lexical list and the distinct pair `doc_id = "a", chunk_id = "b:c"` in
the dense list, both map to the dict key `"a:b:c"`: the fused output
holds a single entry whose score `2/61` double-counts both hits, and the
dense pair `("a", "b:c")` appears in no output entry, refuting "each
distinct (doc_id, chunk_id) key exactly once" and the score formula,
which gives `1/61` for `("a:b", "c")`. -/
theorem claimC4_fusion_counterexample :
    (rrf_fuse 60 bm25Colon denseColon 10).map (fun e => (e.doc_id, e.chunk_id, e.score)) =
      [("a:b", "c", (2 : ℚ)/61)] ∧
    ("a", "b:c") ∈ denseColon.map pairOf ∧
    ("a", "b:c") ∉ (rrf_fuse 60 bm25Colon denseColon 10).map entryPair ∧
    contrib 60 ("a:b", "c") bm25Colon + contrib 60 ("a:b", "c") denseColon = 1/61 ∧
    ¬ ((2 : ℚ)/61 = 1/61) := by
  with_unfolding_all decide

/-- C5 (amended): for every pair of input rank lists whose
`(doc_id, chunk_id)` pairs are pairwise distinct within each list and
whose `doc_id`s contain no colon, whenever two fused entries have equal
`fusion_score`, the fusion output orders them by `(bm25_rank,
dense_rank)` ascending with a missing rank treated as `+∞`, with the
lexicographic `chunk_id` fallback never needed (the rank pairs are
strictly ordered); in particular, for lexical list `[(d1,c1),(d2,c2)]`
and dense list `[(d2,c2),(d3,c3)]` with `k_rrf = 60`, the top-3 output
is `[c2, c1, c3]`.  Without the hypotheses the ordering claim fails,
see the counterexample. -/
theorem claimC5_fusion_tie_break (k top_k : Nat) (bm25 dense : List SearchResult)
    (hbp : (bm25.map pairOf).Nodup) (hdp : (dense.map pairOf).Nodup)
    (hbc : ∀ r ∈ bm25, colonFree r.doc_id) (hdc : ∀ r ∈ dense, colonFree r.doc_id) :
    (∀ i j (hi : i < (rrf_fuse k bm25 dense top_k).length)
        (hj : j < (rrf_fuse k bm25 dense top_k).length), i < j →
      ((rrf_fuse k bm25 dense top_k).get ⟨i, hi⟩).score =
        ((rrf_fuse k bm25 dense top_k).get ⟨j, hj⟩).score →
      specTieOrder ((rrf_fuse k bm25 dense top_k).get ⟨i, hi⟩)
        ((rrf_fuse k bm25 dense top_k).get ⟨j, hj⟩)) ∧
    (rrf_fuse 60 lexSc denseSc 3).map FusedEntry.chunk_id = ["c2", "c1", "c3"] := by
  constructor
  · have hL := pairwise_tie_scoresList k bm25 dense hbp hdp hbc hdc
    have hR : (scoresList k bm25 dense).Pairwise
        (fun a b => a.score = b.score → specTieOrder a b) :=
      hL.imp (fun h => fun _ => Or.inl h)
    have hS := sortDescBy_pairwise FusedEntry.score
      (fun a b hne heq => absurd heq hne) _ hR
    have hT : (rrf_fuse k bm25 dense top_k).Pairwise
        (fun a b => a.score = b.score → specTieOrder a b) :=
      List.Pairwise.sublist (List.take_sublist top_k _) hS
    rw [List.pairwise_iff_getElem] at hT
    intro i j hi hj hij heq
    exact hT i j hi hj hij heq
  · with_unfolding_all decide

/-- C5 witness: the amended tie-break claim evaluated at `k_rrf = 60`,
`top_k = 3` and the spec's hybrid-merge scenario lists. -/
theorem claimC5_fusion_tie_break_witness :
    ((lexSc.map pairOf).Nodup ∧ (denseSc.map pairOf).Nodup ∧
      (∀ r ∈ lexSc, colonFree r.doc_id) ∧ (∀ r ∈ denseSc, colonFree r.doc_id)) ∧
    ((∀ i j (hi : i < (rrf_fuse 60 lexSc denseSc 3).length)
        (hj : j < (rrf_fuse 60 lexSc denseSc 3).length), i < j →
      ((rrf_fuse 60 lexSc denseSc 3).get ⟨i, hi⟩).score =
        ((rrf_fuse 60 lexSc denseSc 3).get ⟨j, hj⟩).score →
      specTieOrder ((rrf_fuse 60 lexSc denseSc 3).get ⟨i, hi⟩)
        ((rrf_fuse 60 lexSc denseSc 3).get ⟨j, hj⟩)) ∧
    (rrf_fuse 60 lexSc denseSc 3).map FusedEntry.chunk_id = ["c2", "c1", "c3"]) :=
  ⟨⟨by decide, by decide, by decide, by decide⟩,
    claimC5_fusion_tie_break 60 3 lexSc denseSc (by decide) (by decide) (by decide) (by decide)⟩

/-- C5 counterexample: with `rrf_k = 1`, an empty lexical list and the
dense list `denseDup` (pair `(dA,cA)` at ranks 1 and 11, `(dB,cB)` at
ranks 2 and 3), the first two fused entries both score `7/12`, yet the
first carries tie key `(∞, 11)` and the second `(∞, 3)`: the claimed
`(bm25_rank, dense_rank)`-ascending order fails, and the keys differ so
the `chunk_id` fallback does not apply. -/
theorem claimC5_fusion_counterexample :
    ((rrf_fuse 1 ([] : List SearchResult) denseDup 11).map
        (fun e => (e.chunk_id, e.score, tieKey e))).take 2 =
      [("cA", (7 : ℚ)/12, ((⊤ : WithTop Nat), WithTop.some 11)),
       ("cB", (7 : ℚ)/12, ((⊤ : WithTop Nat), WithTop.some 3))] ∧
    ¬ tieLt ((⊤ : WithTop Nat), WithTop.some 11) ((⊤ : WithTop Nat), WithTop.some 3) ∧
    ((⊤ : WithTop Nat), WithTop.some 11) ≠ ((⊤ : WithTop Nat), WithTop.some 3) := by
  with_unfolding_all decide

/-! Generator lemmas and claim theorems. -/

theorem generate_eq (generator_type question : String) (contexts : List Context)
    (force_citations : Bool) :
    generate generator_type question contexts force_citations =
      if !is_answerable contexts then { abstained := true, reason := some "low_coverage" }
      else generate_stub_answer question contexts := by
  unfold generate generate_hf_answer
  split
  · rfl
  · simp [validate_citations]

theorem generate_stub_answer_reason (question : String) (contexts : List Context) :
    (generate_stub_answer question contexts).reason = some "no_context" ∨
    (generate_stub_answer question contexts).reason = none := by
  unfold generate_stub_answer
  by_cases h : (stubPieces 0 (contexts.take 3)).1.isEmpty
  · left
    simp [h]
  · right
    simp [h]

/-- C1 (amended): the citation-validation gate always passes, because
`_validate_citations` returns `True` unconditionally in the stub path.
Whatever the generator type, the question, the contexts and the
`force_citations` flag, no result of `generate` carries the reason
`validation_fail`: answers are returned even when their citations
reference `chunk_id`s absent from the contexts. -/
theorem claimC1_validation_gate (generator_type question : String)
    (contexts : List Context) (force_citations : Bool) :
    (generate generator_type question contexts force_citations).reason ≠
      some "validation_fail" := by
  rw [generate_eq]
  split
  · simp
  · rcases generate_stub_answer_reason question contexts with h | h <;> simp [h]

/-- C1 counterexample: with `force_citations = true`, coverage satisfied
and a single context whose `chunk_id` key is `"real_chunk"`, the stub
generator answers with a citation to `"chunk_0"`, a `chunk_id` present in
no context — yet the result is not an abstention with `validation_fail`,
refuting the claim that such a violation abstains. -/
theorem claimC1_validation_counterexample :
    (generate "stub" "q" [ctxHello] true).abstained = false ∧
    (generate "stub" "q" [ctxHello] true).citations.map Citation.chunk_id = ["chunk_0"] ∧
    (generate "stub" "q" [ctxHello] true).reason ≠ some "validation_fail" ∧
    (∀ c ∈ [ctxHello], c.chunk_id ≠ some "chunk_0") := by
  with_unfolding_all decide

/-- C6 (amended): `generate` abstains with reason `low_coverage` both
when `contexts` is empty (the claim said `no_results`; that reason is
produced only by the orchestrator when retrieval returns nothing) and
when the maximal `rerank_score` is below the coverage threshold 0.3. -/
theorem claimC6_coverage_gate (generator_type question : String)
    (contexts : List Context) (force_citations : Bool) :
    (contexts = [] →
      generate generator_type question contexts force_citations =
        { abstained := true, reason := some "low_coverage" }) ∧
    (contexts ≠ [] → maxRerank contexts < coverage_threshold →
      generate generator_type question contexts force_citations =
        { abstained := true, reason := some "low_coverage" }) := by
  constructor
  · rintro rfl
    rw [generate_eq]
    simp [is_answerable]
  · intro hne hlt
    rw [generate_eq]
    have hans : is_answerable contexts = false := by
      unfold is_answerable
      rw [if_neg (by simpa using hne)]
      simpa using not_le_of_lt hlt
    rw [hans]
    rfl

/-- C6 witness: the coverage gate evaluated at the single low-scoring
context `ctxLow` (score 1/10 < 3/10). -/
theorem claimC6_coverage_gate_witness :
    ([ctxLow] ≠ ([] : List Context)) ∧ maxRerank [ctxLow] < coverage_threshold ∧
    generate "stub" "q" [ctxLow] true = { abstained := true, reason := some "low_coverage" } :=
  ⟨by decide, by with_unfolding_all decide,
    (claimC6_coverage_gate "stub" "q" [ctxLow] true).2 (by decide)
      (by with_unfolding_all decide)⟩

/-- C6 counterexample: on the empty context list with
`force_citations = true`, `generate` abstains with reason
`low_coverage`, not the claimed `no_results`. -/
theorem claimC6_coverage_counterexample :
    (generate "stub" "q" [] true).abstained = true ∧
    (generate "stub" "q" [] true).reason = some "low_coverage" ∧
    (some "low_coverage" : Option String) ≠ some "no_results" := by
  with_unfolding_all decide

/-! Reranker claim theorems. -/

/-- C7: whenever the cross-encoder model is unavailable (`mdl = none`) or
the prediction call raises (`predict` returns an error), `rerank`
degrades to the first `top_k` candidates in their input order, each with
`rerank_score = 0.0`.  The embedding is a total function, so no
exception reaches the caller on either path. -/
theorem claimC7_rerank_fallback (query : String) (candidates : List String)
    (top_k : Nat) (predict : PredictFn)
    (hfail : predict (candidates.map (fun c => (query, c))) = Except.error ()) :
    rerank none query candidates top_k = (candidates.take top_k).map fallbackCtx ∧
    rerank (some predict) query candidates top_k = (candidates.take top_k).map fallbackCtx := by
  refine ⟨rfl, ?_⟩
  show (if candidates.isEmpty = true then (candidates.take top_k).map fallbackCtx
    else match predict (candidates.map (fun c => (query, c))) with
      | Except.error _ => (candidates.take top_k).map fallbackCtx
      | Except.ok scores =>
        (sortDescBy Context.rerank_score
          ((candidates.zip scores).map
            (fun cs => { text := cs.1, rerank_score := cs.2 }))).take top_k) =
    (candidates.take top_k).map fallbackCtx
  by_cases hc : candidates.isEmpty
  · rw [if_pos hc]
  · rw [if_neg hc, hfail]

/-- C7 witness: the fallback behaviour on three candidates with
`top_k = 2` and the always-raising `failPredict`. -/
theorem claimC7_rerank_fallback_witness :
    (failPredict (["a", "b", "c"].map (fun c => ("q", c))) = Except.error ()) ∧
    (rerank none "q" ["a", "b", "c"] 2 = (["a", "b", "c"].take 2).map fallbackCtx ∧
     rerank (some failPredict) "q" ["a", "b", "c"] 2 =
       (["a", "b", "c"].take 2).map fallbackCtx) :=
  ⟨rfl, claimC7_rerank_fallback "q" ["a", "b", "c"] 2 failPredict rfl⟩

/-- C8: for every query and candidate list, `rerank` returns a list of
length `min(top_k, len(candidates))` whose elements are drawn from the
input candidates, ordered by non-increasing `rerank_score`; candidates
with equal scores keep their relative input order (stability stated as:
the output restricted to any one score value is an initial segment of
the input scored list restricted to that value).  Both the model path
(under the cross-encoder contract of one score per pair) and the
degraded path are covered; determinism is inherent, the embedding being
a pure function of the model and the input. -/
theorem claimC8_rerank_spec (query : String) (candidates : List String)
    (top_k : Nat) (predict : PredictFn) (scores : List ℚ)
    (hok : predict (candidates.map (fun c => (query, c))) = Except.ok scores)
    (hlen : scores.length = candidates.length) :
    ((rerank (some predict) query candidates top_k).length = min top_k candidates.length ∧
     (∀ c ∈ rerank (some predict) query candidates top_k, c.text ∈ candidates) ∧
     (rerank (some predict) query candidates top_k).Pairwise
       (fun a b => b.rerank_score ≤ a.rerank_score) ∧
     (∀ s : ℚ, ∃ t, ((candidates.zip scores).map
         (fun cs => ({ text := cs.1, rerank_score := cs.2 } : Context))).filter
           (fun c => c.rerank_score == s) =
       ((rerank (some predict) query candidates top_k).filter
           (fun c => c.rerank_score == s)) ++ t)) ∧
    ((rerank none query candidates top_k).length = min top_k candidates.length ∧
     (∀ c ∈ rerank none query candidates top_k, c.text ∈ candidates) ∧
     (rerank none query candidates top_k).Pairwise
       (fun a b => b.rerank_score ≤ a.rerank_score) ∧
     (∀ s : ℚ, ∃ t, (candidates.map fallbackCtx).filter (fun c => c.rerank_score == s) =
       ((rerank none query candidates top_k).filter (fun c => c.rerank_score == s)) ++ t)) := by
  have hfilter_key : ∀ s : ℚ, ∀ a b : Context,
      (a.rerank_score == s) = true → (b.rerank_score == s) = true →
      a.rerank_score = b.rerank_score := by
    intro s a b ha hb
    rw [beq_iff_eq.mp ha, beq_iff_eq.mp hb]
  constructor
  · by_cases hc : candidates.isEmpty
    · have hcand : candidates = [] := List.isEmpty_iff.mp hc
      subst hcand
      refine ⟨by simp [rerank], by simp [rerank], by simp [rerank], ?_⟩
      intro s
      exact ⟨[], by simp [rerank]⟩
    · have hr : rerank (some predict) query candidates top_k =
          (sortDescBy Context.rerank_score
            ((candidates.zip scores).map
              (fun cs => { text := cs.1, rerank_score := cs.2 }))).take top_k := by
        show (if candidates.isEmpty = true then (candidates.take top_k).map fallbackCtx
          else match predict (candidates.map (fun c => (query, c))) with
            | Except.error _ => (candidates.take top_k).map fallbackCtx
            | Except.ok scores =>
              (sortDescBy Context.rerank_score
                ((candidates.zip scores).map
                  (fun cs => { text := cs.1, rerank_score := cs.2 }))).take top_k) = _
        rw [if_neg hc, hok]
      set scored := (candidates.zip scores).map
        (fun cs => ({ text := cs.1, rerank_score := cs.2 } : Context)) with hscored
      have hperm := sortDescBy_perm Context.rerank_score scored
      have hslen : scored.length = candidates.length := by
        rw [hscored, List.length_map, List.length_zip, hlen, Nat.min_self]
      refine ⟨?_, ?_, ?_, ?_⟩
      · rw [hr, List.length_take, hperm.length_eq, hslen]
      · intro c hcmem
        rw [hr] at hcmem
        have : c ∈ scored :=
          hperm.mem_iff.mp (List.mem_of_mem_take hcmem)
        obtain ⟨cs, hcs, rfl⟩ := List.mem_map.mp this
        exact (List.of_mem_zip hcs).1
      · rw [hr]
        exact List.Pairwise.sublist (List.take_sublist top_k _)
          (sortDescBy_sorted Context.rerank_score scored)
      · intro s
        refine ⟨(List.drop top_k (sortDescBy Context.rerank_score scored)).filter
          (fun c => c.rerank_score == s), ?_⟩
        rw [hr, ← List.filter_append, List.take_append_drop]
        exact (filter_sortDescBy (fun c => c.rerank_score == s)
          Context.rerank_score (hfilter_key s) scored).symm
  · refine ⟨by simp [rerank], ?_, ?_, ?_⟩
    · intro c hcmem
      obtain ⟨t, ht, rfl⟩ := List.mem_map.mp hcmem
      exact List.mem_of_mem_take ht
    · show ((candidates.take top_k).map fallbackCtx).Pairwise
        (fun a b => b.rerank_score ≤ a.rerank_score)
      rw [List.pairwise_map]
      rw [List.pairwise_iff_getElem]
      intro i j hi hj hij
      exact le_refl 0
    · intro s
      refine ⟨((candidates.drop top_k).map fallbackCtx).filter
        (fun c => c.rerank_score == s), ?_⟩
      show (candidates.map fallbackCtx).filter (fun c => c.rerank_score == s) =
        ((candidates.take top_k).map fallbackCtx).filter (fun c => c.rerank_score == s) ++ _
      rw [← List.filter_append, ← List.map_append, List.take_append_drop]

/-- C8 witness: the reranker contract evaluated on two candidates with
the constant-score model `okPredict` and `top_k = 1`. -/
theorem claimC8_rerank_spec_witness :
    (okPredict (["a", "b"].map (fun c => ("q", c))) =
      Except.ok [(1 : ℚ)/2, (1 : ℚ)/2]) ∧
    ([(1 : ℚ)/2, (1 : ℚ)/2].length = (["a", "b"] : List String).length) ∧
    (((rerank (some okPredict) "q" ["a", "b"] 1).length = min 1 (["a", "b"] : List String).length ∧
     (∀ c ∈ rerank (some okPredict) "q" ["a", "b"] 1, c.text ∈ (["a", "b"] : List String)) ∧
     (rerank (some okPredict) "q" ["a", "b"] 1).Pairwise
       (fun a b => b.rerank_score ≤ a.rerank_score) ∧
     (∀ s : ℚ, ∃ t, (((["a", "b"] : List String).zip [(1 : ℚ)/2, (1 : ℚ)/2]).map
         (fun cs => ({ text := cs.1, rerank_score := cs.2 } : Context))).filter
           (fun c => c.rerank_score == s) =
       ((rerank (some okPredict) "q" ["a", "b"] 1).filter
           (fun c => c.rerank_score == s)) ++ t)) ∧
    ((rerank none "q" ["a", "b"] 1).length = min 1 (["a", "b"] : List String).length ∧
     (∀ c ∈ rerank none "q" ["a", "b"] 1, c.text ∈ (["a", "b"] : List String)) ∧
     (rerank none "q" ["a", "b"] 1).Pairwise
       (fun a b => b.rerank_score ≤ a.rerank_score) ∧
     (∀ s : ℚ, ∃ t, ((["a", "b"] : List String).map fallbackCtx).filter
         (fun c => c.rerank_score == s) =
       ((rerank none "q" ["a", "b"] 1).filter (fun c => c.rerank_score == s)) ++ t))) :=
  ⟨rfl, rfl, claimC8_rerank_spec "q" ["a", "b"] 1 okPredict [(1 : ℚ)/2, (1 : ℚ)/2] rfl rfl⟩

/-! Ask-route lemmas and claim theorems. -/

theorem rerank_none_eq (query : String) (candidates : List String) (top_k : Nat) :
    rerank none query candidates top_k = (candidates.take top_k).map fallbackCtx := rfl

theorem rerank_some_eq (predict : PredictFn) (query : String)
    (candidates : List String) (top_k : Nat) :
    rerank (some predict) query candidates top_k =
      if candidates.isEmpty = true then (candidates.take top_k).map fallbackCtx
      else match predict (candidates.map (fun c => (query, c))) with
        | Except.error _ => (candidates.take top_k).map fallbackCtx
        | Except.ok scores =>
          (sortDescBy Context.rerank_score
            ((candidates.zip scores).map
              (fun cs => { text := cs.1, rerank_score := cs.2 }))).take top_k := rfl

/-- Every context built by the reranker carries only `text` and
`rerank_score`: the `chunk_id` key is never set. -/
theorem rerank_chunk_id_none (mdl : Option PredictFn) (query : String)
    (candidates : List String) (top_k : Nat) (c : Context)
    (hc : c ∈ rerank mdl query candidates top_k) : c.chunk_id = none := by
  cases mdl with
  | none =>
    rw [rerank_none_eq] at hc
    obtain ⟨t, _, rfl⟩ := List.mem_map.mp hc
    rfl
  | some predict =>
    rw [rerank_some_eq] at hc
    by_cases hce : candidates.isEmpty = true
    · rw [if_pos hce] at hc
      obtain ⟨t, _, rfl⟩ := List.mem_map.mp hc
      rfl
    · rw [if_neg hce] at hc
      cases hpred : predict (candidates.map (fun c => (query, c))) with
      | error e =>
        rw [hpred] at hc
        obtain ⟨t, _, rfl⟩ := List.mem_map.mp hc
        rfl
      | ok scores =>
        rw [hpred] at hc
        have hmem := (sortDescBy_perm Context.rerank_score _).mem_iff.mp
          (List.mem_of_mem_take hc)
        obtain ⟨cs, _, rfl⟩ := List.mem_map.mp hmem
        rfl

/-- Every citation built by the stub synthesizer's loop points at the
synthetic id `chunk_<i>` where `i` is the 0-based loop index. -/
theorem stubPieces_citations (i0 : Nat) (l : List Context) (c : Citation)
    (h : c ∈ (stubPieces i0 l).2) :
    ∃ j, j < l.length ∧ c.chunk_id = "chunk_" ++ toString (i0 + j) := by
  induction l generalizing i0 with
  | nil => simp [stubPieces] at h
  | cons x xs ih =>
    by_cases hx : (x.text == "") = true
    · simp only [stubPieces, hx, if_true] at h
      obtain ⟨j, hj, hcid⟩ := ih (i0 + 1) h
      exact ⟨j + 1, by simpa using Nat.succ_lt_succ hj,
        by rw [hcid, (by omega : i0 + 1 + j = i0 + (j + 1))]⟩
    · simp only [stubPieces, hx, if_false] at h
      rcases List.mem_cons.mp h with rfl | h
      · exact ⟨0, by simp, by simp⟩
      · obtain ⟨j, hj, hcid⟩ := ih (i0 + 1) h
        exact ⟨j + 1, by simpa using Nat.succ_lt_succ hj,
          by rw [hcid, (by omega : i0 + 1 + j = i0 + (j + 1))]⟩

/-- C10: for every ask request answered without abstention, the contexts
the orchestrator hands to the generator are exactly the reranker's
output over the fused results' texts — dicts carrying only `text` and
`rerank_score` (`doc_id` and `chunk_id` are discarded when building
candidates) — and every emitted citation's `chunk_id` is the synthetic
string `chunk_<i>` for a 0-based position `i` among the top three
contexts; the whole outcome is independent of the retrieved chunks'
actual `chunk_id`/`doc_id` values, depending only on their texts. -/
theorem claimC10_ask_contexts (mdl : Option PredictFn) (question : String)
    (top_k : Nat) (ground : Bool) (now : ℚ) (clientQueue : List ℚ)
    (fusedResults : List FusedEntry) (resp : AskResponse) (contexts : List Context)
    (hctx : contexts = rerank mdl question (fusedResults.map FusedEntry.text) top_k)
    (hresp : (ask_question mdl question top_k ground now clientQueue
      fusedResults).response = some resp)
    (hnab : resp.abstained = false) :
    (∀ c ∈ contexts, c.chunk_id = none) ∧
    (∀ cit ∈ resp.citations, ∃ i, i < 3 ∧ i < contexts.length ∧
      cit.chunk_id = "chunk_" ++ toString i) ∧
    (∀ fusedResults' : List FusedEntry,
      fusedResults'.map FusedEntry.text = fusedResults.map FusedEntry.text →
      ask_question mdl question top_k ground now clientQueue fusedResults' =
        ask_question mdl question top_k ground now clientQueue fusedResults) := by
  refine ⟨?_, ?_, ?_⟩
  · intro c hc
    rw [hctx] at hc
    exact rerank_chunk_id_none mdl question (fusedResults.map FusedEntry.text) top_k c hc
  · by_cases hall : (is_allowed 10 60 now clientQueue).1 = true
    · by_cases hemp : fusedResults.isEmpty = true
      · simp only [ask_question, hall, hemp, Bool.not_true, Bool.false_eq_true,
          if_false, if_true, Option.some.injEq] at hresp
        rw [← hresp] at hnab
        simp at hnab
      · simp only [ask_question, hall, hemp, Bool.not_true, Bool.false_eq_true,
          if_false, if_true, Option.some.injEq] at hresp
        rw [← hctx] at hresp
        rw [generate_eq] at hresp
        by_cases hans : is_answerable contexts = true
        · rw [hans] at hresp
          simp only [Bool.not_true, Bool.false_eq_true, if_false] at hresp
          by_cases hp : (stubPieces 0 (contexts.take 3)).1.isEmpty = true
          · rw [show generate_stub_answer question contexts =
                { abstained := true, reason := some "no_context" } from by
                unfold generate_stub_answer; rw [if_pos hp]] at hresp
            rw [← hresp] at hnab
            simp [toAskResponse] at hnab
          · rw [show generate_stub_answer question contexts =
                { abstained := false
                  answer := some (String.intercalate " "
                    (stubPieces 0 (contexts.take 3)).1)
                  citations := (stubPieces 0 (contexts.take 3)).2
                  evidence_coverage := min ((contexts.length : ℚ) / 5) 1 } from by
                unfold generate_stub_answer; rw [if_neg hp]] at hresp
            rw [← hresp]
            intro cit hcit
            simp only [toAskResponse] at hcit
            obtain ⟨j, hj, hcid⟩ := stubPieces_citations 0 (contexts.take 3) cit hcit
            rw [List.length_take] at hj
            exact ⟨j, lt_of_lt_of_le hj (min_le_left 3 contexts.length),
              lt_of_lt_of_le hj (min_le_right 3 contexts.length),
              by rw [hcid, Nat.zero_add]⟩
        · rw [Bool.not_eq_true] at hans
          rw [hans] at hresp
          simp only [Bool.not_false, if_true] at hresp
          rw [← hresp] at hnab
          simp [toAskResponse] at hnab
    · simp only [ask_question, hall, Bool.not_eq_true'] at hresp
      rw [Bool.not_eq_true] at hall
      simp [hall] at hresp
  · intro fusedResults' hmap
    have hempty : fusedResults'.isEmpty = fusedResults.isEmpty := by
      cases fusedResults' <;> cases fusedResults <;> simp_all
    simp only [ask_question, hmap, hempty]

/-- C10 witness: a full non-abstained ask run over a single fused result
with text `"hi"` and the constant-score model `okPredict`. -/
theorem claimC10_ask_contexts_witness :
    ((ask_question (some okPredict) "qq" 8 true 0 [] [feEx]).response =
      some { answer := some "Based on the available information: hi"
             citations := [{ chunk_id := "chunk_0", span_start := 0, span_end := 2 }]
             evidence_coverage := 1/5
             abstained := false
             reason := none }) ∧
    ((∀ c ∈ rerank (some okPredict) "qq" ([feEx].map FusedEntry.text) 8,
        c.chunk_id = none) ∧
     (∀ cit ∈ ({ answer := some "Based on the available information: hi"
                 citations := [{ chunk_id := "chunk_0", span_start := 0, span_end := 2 }]
                 evidence_coverage := 1/5
                 abstained := false
                 reason := none } : AskResponse).citations, ∃ i, i < 3 ∧
        i < (rerank (some okPredict) "qq" ([feEx].map FusedEntry.text) 8).length ∧
        cit.chunk_id = "chunk_" ++ toString i) ∧
     (∀ fusedResults' : List FusedEntry,
        fusedResults'.map FusedEntry.text = [feEx].map FusedEntry.text →
        ask_question (some okPredict) "qq" 8 true 0 [] fusedResults' =
          ask_question (some okPredict) "qq" 8 true 0 [] [feEx])) :=
  ⟨by with_unfolding_all decide,
    claimC10_ask_contexts (some okPredict) "qq" 8 true 0 [] [feEx]
      { answer := some "Based on the available information: hi"
        citations := [{ chunk_id := "chunk_0", span_start := 0, span_end := 2 }]
        evidence_coverage := 1/5
        abstained := false
        reason := none }
      (rerank (some okPredict) "qq" ([feEx].map FusedEntry.text) 8)
      rfl (by with_unfolding_all decide) rfl⟩

/-- C2: the claim is right about admission control (ten fresh timestamps
deny the eleventh request, which consumes no downstream resources) but
wrong about the status code the code produces: the handler's
`raise HTTPException(429)` sits inside its own `try`, whose blanket
`except Exception` catches it and raises `HTTPException(500, ...)`, so
the client receives 500, not 429.  Evaluation at ten timestamps `100`
with `now = 100` (all inside the 60-second window). -/
theorem claimC2_rate_limit_returns_500 :
    (is_allowed 10 60 100 (List.replicate 10 (100 : ℚ))).1 = false ∧
    (ask_question none "q" 8 true 100 (List.replicate 10 (100 : ℚ)) [feEx]).status = 500 ∧
    (ask_question none "q" 8 true 100 (List.replicate 10 (100 : ℚ)) [feEx]).retrievalCalls = 0 ∧
    (ask_question none "q" 8 true 100 (List.replicate 10 (100 : ℚ)) [feEx]).response = none ∧
    (500 : Nat) ≠ 429 := by
  with_unfolding_all decide

/-! Feedback claim theorems. -/

/-- C3: the claim is right that an invalid label writes no feedback row
and emits no event, but wrong about the status code: the
`raise HTTPException(400)` for an invalid label happens inside the
handler's `try`, whose blanket `except Exception` catches it and raises
`HTTPException(500, ...)`, so the client receives 500, not 400.
Evaluated at the label `"love it"` for every store and producer state. -/
theorem claimC3_feedback_invalid_label (storeResult : Except Unit Nat)
    (producerAvailable produceOk : Bool) :
    valid_labels.contains "love it" = false ∧
    submit_feedback "love it" storeResult producerAvailable produceOk =
      { status := 500, stored := false, emitted := false, body := none } ∧
    (500 : Nat) ≠ 400 := by
  refine ⟨by decide, ?_, by decide⟩
  unfold submit_feedback
  rw [if_pos (by decide)]

/-- C9: the claim (a successful store returns `{status: "success",
feedback_id}` even when event emission fails) does not hold of the code:
`send_feedback_event` is a plain synchronous function returning `bool`,
and the handler awaits its result, so after the store succeeds and the
emission attempt completes, `await <bool>` raises `TypeError`, the
blanket `except Exception` converts it to HTTP 500, and the success body
is never returned — whatever the emission outcome. -/
theorem claimC9_feedback_success_path (fid : Nat)
    (producerAvailable produceOk : Bool) :
    valid_labels.contains "click" = true ∧
    submit_feedback "click" (Except.ok fid) producerAvailable produceOk =
      { status := 500, stored := true,
        emitted := send_feedback_event producerAvailable produceOk, body := none } ∧
    send_feedback_event false produceOk = false ∧
    (submit_feedback "click" (Except.ok fid) false produceOk).status ≠ 200 ∧
    (submit_feedback "click" (Except.ok fid) false produceOk).body = none := by
  have heq : ∀ pa po : Bool, submit_feedback "click" (Except.ok fid) pa po =
      { status := 500, stored := true, emitted := send_feedback_event pa po
        body := none } := by
    intro pa po
    unfold submit_feedback
    rw [if_neg (by decide)]
  refine ⟨by decide, heq _ _, rfl, ?_, ?_⟩
  · rw [heq false produceOk]
    simp
  · rw [heq false produceOk]

end Searchit
